import Mathlib

/-!
Shallow embedding of the minicc compiler (src/minicc.c) in Lean 4, used to
settle the specification claims about the lexer, the recursive-descent
parser, the symbol table and the two code generators (AArch64 and x86-64).

Conventions used throughout:
- machine integers of the C source (the `int` fields of tokens, AST nodes
  and symbols) are modelled as `Int`; the C bit operations `&` and `>>`
  are modelled by `Int.land` and `Int.shiftRight`;
- fallible code paths (the fatal `error` routine, and the undefined
  behaviour of dereferencing a null `Symbol *`) are modelled with `Except`;
- every recursive function takes an explicit fuel argument so that all
  definitions are structurally recursive and kernel-reducible; exhausting
  the fuel is an error distinct from every behaviour of the C code;
- the token stream consumed by the parser is a `List Token` whose head is
  the current lookahead token (`c->cur` in the source); the list is
  expected to end with a `TOK_EOF` token, mirroring the C lexer which
  yields `TOK_EOF` forever at the end of input;
- emitted assembly is a list of instruction constructors, one constructor
  per distinct `emit` format string of the source; the exact emitted text
  is recorded in each constructor's comment.
-/

namespace Minicc

/-- Token kinds, mirroring the `TokenType` enum of src/minicc.c. -/
inductive TokenType where
  | TOK_EOF
  | TOK_INT
  | TOK_IF
  | TOK_ELSE
  | TOK_WHILE
  | TOK_FOR
  | TOK_RETURN
  | TOK_VOID
  | TOK_IDENT
  | TOK_NUM
  | TOK_STR
  | TOK_PLUS
  | TOK_MINUS
  | TOK_STAR
  | TOK_SLASH
  | TOK_PERCENT
  | TOK_ASSIGN
  | TOK_EQ
  | TOK_NE
  | TOK_LT
  | TOK_GT
  | TOK_LE
  | TOK_GE
  | TOK_AND
  | TOK_OR
  | TOK_NOT
  | TOK_LPAREN
  | TOK_RPAREN
  | TOK_LBRACE
  | TOK_RBRACE
  | TOK_LBRACKET
  | TOK_RBRACKET
  | TOK_SEMI
  | TOK_COMMA
  | TOK_AMP
  | TOK_PLUSPLUS
  | TOK_MINUSMINUS
  | TOK_PLUSEQ
  | TOK_MINUSEQ
deriving DecidableEq, Repr

/-- Token, mirroring the `Token` struct of src/minicc.c.  The `line`/`col`
provenance fields are omitted: the embedded claims never read them (the
parser's `error` uses the lexer cursor, not the token). -/
structure Token where
  type : TokenType
  str : String := ""
  num : Int := 0
deriving DecidableEq, Repr

/-- AST, mirroring the tagged-union `AST` struct of src/minicc.c.  The
assignment `op` field is the C `int` marker: `0` for plain `=`, `43`
(ASCII of the plus sign) for `+=`, `45` (ASCII of the minus sign) for
`-=`, exactly as `parse_assignment` stores it. -/
inductive AST where
  | num (n : Int)
  | strLit (s : String)
  | var (name : String)
  | binop (op : TokenType) (left : AST) (right : AST)
  | unop (op : TokenType) (operand : AST)
  | assign (left : AST) (right : AST) (op : Int)
  | call (name : String) (args : List AST)
  | if_stmt (cond : AST) (then_branch : AST) (else_branch : Option AST)
  | while_stmt (cond : AST) (body : AST)
  | for_stmt (ini : Option AST) (cond : Option AST) (update : Option AST) (body : AST)
  | ret (value : Option AST)
  | block (stmts : List AST)
  | func (name : String) (params : List String) (body : AST) (is_void : Bool)
  | vardecl (name : String) (ini : Option AST) (is_array : Bool) (array_size : Int)
  | program (globals : List AST) (funcs : List AST)
  | array_access (name : String) (index : AST)
  | addr (name : String)

/-- Faults of the modelled lexer scanning loops: an out-of-bounds read
(an access to a byte past the NUL terminator of the source buffer), or
fuel exhaustion (an artifact of the embedding, never a C behaviour). -/
inductive ScanErr where
  | oob
  | fuel
deriving DecidableEq, Repr

/-- NUL, the terminator byte of the C source buffer. -/
def nulChar : Char := Char.ofNat 0

/-- String-literal scanning loop of `next_token` (src/minicc.c lines
303-306):

    while (peek(c) && peek(c) != '"') {
        if (peek(c) == '\\') advance(c);
        advance(c);
    }

The buffer `buf` models the bytes of the allocated source buffer from the
scan start onwards, whose last element is the NUL terminator.  Reading an
index that is not below `buf.length` models an access past the end of the
allocation and returns `.error .oob`.  In the escape branch the second
`advance` reads the byte at `pos+1` (for line accounting) and the loop
continues at `pos+2`. -/
def string_scan (buf : List Char) : Nat → Nat → Except ScanErr Nat
  | 0, _ => .error .fuel
  | fuel + 1, pos =>
    if h : pos < buf.length then
      let ch := buf.get ⟨pos, h⟩
      if ch = nulChar ∨ ch = '"' then .ok pos
      else if ch = '\\' then
        if pos + 1 < buf.length then string_scan buf fuel (pos + 2)
        else .error .oob
      else string_scan buf fuel (pos + 1)
    else .error .oob

/-- Block-comment scanning loop of `skip_whitespace` (src/minicc.c lines
242-248):

    advance(c); advance(c);
    while (peek(c) && !(peek(c) == '*' && c->src[c->pos + 1] == '/')) advance(c);
    if (peek(c)) { advance(c); advance(c); }

modelled from the position just after the opening two characters.  The
byte at `pos + 1` is read only when the byte at `pos` is a star (short
circuit of the C conjunction). -/
def comment_scan (buf : List Char) : Nat → Nat → Except ScanErr Nat
  | 0, _ => .error .fuel
  | fuel + 1, pos =>
    if h : pos < buf.length then
      let ch := buf.get ⟨pos, h⟩
      if ch = nulChar then .ok pos
      else if ch = '*' then
        if h2 : pos + 1 < buf.length then
          if buf.get ⟨pos + 1, h2⟩ = '/' then .ok (pos + 2)
          else comment_scan buf fuel (pos + 1)
        else .error .oob
      else comment_scan buf fuel (pos + 1)
    else .error .oob

/-- Line-comment scanning loop of `skip_whitespace` (src/minicc.c line
241): while (peek(c) && peek(c) != '\n') advance(c); -/
def line_comment_scan (buf : List Char) : Nat → Nat → Except ScanErr Nat
  | 0, _ => .error .fuel
  | fuel + 1, pos =>
    if h : pos < buf.length then
      let ch := buf.get ⟨pos, h⟩
      if ch = nulChar ∨ ch = '\n' then .ok pos
      else line_comment_scan buf fuel (pos + 1)
    else .error .oob

/-- Parser faults: a fatal diagnostic (the `error` routine prints one
line and exits with status 1), or fuel exhaustion (embedding artifact). -/
inductive PErr where
  | diag (msg : String)
  | fuel
deriving DecidableEq, Repr

/-- Current lookahead token (`c->cur`); the C lexer produces `TOK_EOF`
at the end of input, so an exhausted list reads as end-of-input. -/
def curTok (ts : List Token) : Token :=
  ts.headD { type := .TOK_EOF }

/-- Advancing the lookahead (`next_token`). -/
def nextTs (ts : List Token) : List Token := ts.tail

/-- Helper `expect` of src/minicc.c lines 377-381: consume a token of the
given kind or die with the diagnostic of the source. -/
def expect (t : TokenType) (ts : List Token) : Except PErr (List Token) :=
  if (curTok ts).type = t then .ok (nextTs ts) else .error (.diag "Unexpected token")

/-- Argument-list loop inside `parse_primary` (src/minicc.c lines
422-425); `pe` is the expression parser `parse_expr` threaded as a
parameter to tie the recursion. -/
def parse_call_args (pe : List Token → Except PErr (AST × List Token)) :
    Nat → List Token → Except PErr (List AST × List Token)
  | 0, _ => .error .fuel
  | fuel + 1, ts =>
    if (curTok ts).type = .TOK_RPAREN then .ok ([], ts)
    else do
      let (a, ts1) ← pe ts
      if (curTok ts1).type = .TOK_RPAREN then do
        let (rest, ts2) ← parse_call_args pe fuel ts1
        .ok (a :: rest, ts2)
      else do
        let ts2 ← expect .TOK_COMMA ts1
        let (rest, ts3) ← parse_call_args pe fuel ts2
        .ok (a :: rest, ts3)

/-- Translation of `parse_primary` (src/minicc.c lines 395-464). -/
def parse_primary (pe : List Token → Except PErr (AST × List Token))
    (fuel : Nat) (ts : List Token) : Except PErr (AST × List Token) :=
  let t := curTok ts
  match t.type with
  | .TOK_NUM => .ok (.num t.num, nextTs ts)
  | .TOK_STR => .ok (.strLit t.str, nextTs ts)
  | .TOK_IDENT =>
    let name := t.str
    let ts1 := nextTs ts
    match (curTok ts1).type with
    | .TOK_LPAREN => do
        let (args, ts3) ← parse_call_args pe fuel (nextTs ts1)
        let ts4 ← expect .TOK_RPAREN ts3
        .ok (.call name args, ts4)
    | .TOK_LBRACKET => do
        let (idx, ts3) ← pe (nextTs ts1)
        let ts4 ← expect .TOK_RBRACKET ts3
        .ok (.array_access name idx, ts4)
    | _ => .ok (.var name, ts1)
  | .TOK_LPAREN => do
      let (e, ts1) ← pe (nextTs ts)
      let ts2 ← expect .TOK_RPAREN ts1
      .ok (e, ts2)
  | .TOK_AMP =>
      let ts1 := nextTs ts
      if (curTok ts1).type = .TOK_IDENT then
        .ok (.addr (curTok ts1).str, nextTs ts1)
      else .error (.diag "Expected identifier after &")
  | _ => .error (.diag "Expected expression")

/-- Translation of `parse_unary` (src/minicc.c lines 466-500), including
the prefix increment/decrement desugaring into an assignment node. -/
def parse_unary (pe : List Token → Except PErr (AST × List Token)) :
    Nat → List Token → Except PErr (AST × List Token)
  | 0, _ => .error .fuel
  | fuel + 1, ts =>
    let t := curTok ts
    if t.type = .TOK_MINUS ∨ t.type = .TOK_NOT then do
      let (e, ts1) ← parse_unary pe fuel (nextTs ts)
      .ok (.unop t.type e, ts1)
    else if t.type = .TOK_PLUSPLUS ∨ t.type = .TOK_MINUSMINUS then
      let ts1 := nextTs ts
      if (curTok ts1).type = .TOK_IDENT then
        let name := (curTok ts1).str
        let bop : TokenType := if t.type = .TOK_PLUSPLUS then .TOK_PLUS else .TOK_MINUS
        .ok (.assign (.var name) (.binop bop (.var name) (.num 1)) 0, nextTs ts1)
      else .error (.diag "Expected identifier after ++/--")
    else parse_primary pe fuel ts

/-- Operator loop of `parse_multiplicative` (src/minicc.c lines 504-512). -/
def parse_mul_loop (pe : List Token → Except PErr (AST × List Token)) :
    Nat → AST → List Token → Except PErr (AST × List Token)
  | 0, _, _ => .error .fuel
  | fuel + 1, left, ts =>
    let t := curTok ts
    if t.type = .TOK_STAR ∨ t.type = .TOK_SLASH ∨ t.type = .TOK_PERCENT then do
      let (r, ts1) ← parse_unary pe fuel (nextTs ts)
      parse_mul_loop pe fuel (.binop t.type left r) ts1
    else .ok (left, ts)

/-- Translation of `parse_multiplicative` (src/minicc.c lines 502-514). -/
def parse_multiplicative (pe : List Token → Except PErr (AST × List Token))
    (fuel : Nat) (ts : List Token) : Except PErr (AST × List Token) :=
  match fuel with
  | 0 => .error .fuel
  | fuel + 1 => do
    let (l, ts1) ← parse_unary pe fuel ts
    parse_mul_loop pe fuel l ts1

/-- Operator loop of `parse_additive` (src/minicc.c lines 518-526). -/
def parse_add_loop (pe : List Token → Except PErr (AST × List Token)) :
    Nat → AST → List Token → Except PErr (AST × List Token)
  | 0, _, _ => .error .fuel
  | fuel + 1, left, ts =>
    let t := curTok ts
    if t.type = .TOK_PLUS ∨ t.type = .TOK_MINUS then do
      let (r, ts1) ← parse_multiplicative pe fuel (nextTs ts)
      parse_add_loop pe fuel (.binop t.type left r) ts1
    else .ok (left, ts)

/-- Translation of `parse_additive` (src/minicc.c lines 516-528). -/
def parse_additive (pe : List Token → Except PErr (AST × List Token))
    (fuel : Nat) (ts : List Token) : Except PErr (AST × List Token) :=
  match fuel with
  | 0 => .error .fuel
  | fuel + 1 => do
    let (l, ts1) ← parse_multiplicative pe fuel ts
    parse_add_loop pe fuel l ts1

/-- Operator loop of `parse_relational` (src/minicc.c lines 532-541). -/
def parse_rel_loop (pe : List Token → Except PErr (AST × List Token)) :
    Nat → AST → List Token → Except PErr (AST × List Token)
  | 0, _, _ => .error .fuel
  | fuel + 1, left, ts =>
    let t := curTok ts
    if t.type = .TOK_LT ∨ t.type = .TOK_GT ∨ t.type = .TOK_LE ∨ t.type = .TOK_GE then do
      let (r, ts1) ← parse_additive pe fuel (nextTs ts)
      parse_rel_loop pe fuel (.binop t.type left r) ts1
    else .ok (left, ts)

/-- Translation of `parse_relational` (src/minicc.c lines 530-543). -/
def parse_relational (pe : List Token → Except PErr (AST × List Token))
    (fuel : Nat) (ts : List Token) : Except PErr (AST × List Token) :=
  match fuel with
  | 0 => .error .fuel
  | fuel + 1 => do
    let (l, ts1) ← parse_additive pe fuel ts
    parse_rel_loop pe fuel l ts1

/-- Operator loop of `parse_equality` (src/minicc.c lines 547-555). -/
def parse_eq_loop (pe : List Token → Except PErr (AST × List Token)) :
    Nat → AST → List Token → Except PErr (AST × List Token)
  | 0, _, _ => .error .fuel
  | fuel + 1, left, ts =>
    let t := curTok ts
    if t.type = .TOK_EQ ∨ t.type = .TOK_NE then do
      let (r, ts1) ← parse_relational pe fuel (nextTs ts)
      parse_eq_loop pe fuel (.binop t.type left r) ts1
    else .ok (left, ts)

/-- Translation of `parse_equality` (src/minicc.c lines 545-557). -/
def parse_equality (pe : List Token → Except PErr (AST × List Token))
    (fuel : Nat) (ts : List Token) : Except PErr (AST × List Token) :=
  match fuel with
  | 0 => .error .fuel
  | fuel + 1 => do
    let (l, ts1) ← parse_relational pe fuel ts
    parse_eq_loop pe fuel l ts1

/-- Operator loop of `parse_logical_and` (src/minicc.c lines 561-568). -/
def parse_and_loop (pe : List Token → Except PErr (AST × List Token)) :
    Nat → AST → List Token → Except PErr (AST × List Token)
  | 0, _, _ => .error .fuel
  | fuel + 1, left, ts =>
    if (curTok ts).type = .TOK_AND then do
      let (r, ts1) ← parse_equality pe fuel (nextTs ts)
      parse_and_loop pe fuel (.binop .TOK_AND left r) ts1
    else .ok (left, ts)

/-- Translation of `parse_logical_and` (src/minicc.c lines 559-570). -/
def parse_logical_and (pe : List Token → Except PErr (AST × List Token))
    (fuel : Nat) (ts : List Token) : Except PErr (AST × List Token) :=
  match fuel with
  | 0 => .error .fuel
  | fuel + 1 => do
    let (l, ts1) ← parse_equality pe fuel ts
    parse_and_loop pe fuel l ts1

/-- Operator loop of `parse_logical_or` (src/minicc.c lines 574-581). -/
def parse_or_loop (pe : List Token → Except PErr (AST × List Token)) :
    Nat → AST → List Token → Except PErr (AST × List Token)
  | 0, _, _ => .error .fuel
  | fuel + 1, left, ts =>
    if (curTok ts).type = .TOK_OR then do
      let (r, ts1) ← parse_logical_and pe fuel (nextTs ts)
      parse_or_loop pe fuel (.binop .TOK_OR left r) ts1
    else .ok (left, ts)

/-- Translation of `parse_logical_or` (src/minicc.c lines 572-583). -/
def parse_logical_or (pe : List Token → Except PErr (AST × List Token))
    (fuel : Nat) (ts : List Token) : Except PErr (AST × List Token) :=
  match fuel with
  | 0 => .error .fuel
  | fuel + 1 => do
    let (l, ts1) ← parse_logical_and pe fuel ts
    parse_or_loop pe fuel l ts1

/-- Translation of `parse_assignment` (src/minicc.c lines 585-599).  Note
that the left side is whatever `parse_logical_or` produced: the source
performs no l-value validation. -/
def parse_assignment (pe : List Token → Except PErr (AST × List Token)) :
    Nat → List Token → Except PErr (AST × List Token)
  | 0, _ => .error .fuel
  | fuel + 1, ts => do
    let (l, ts1) ← parse_logical_or pe fuel ts
    let t := curTok ts1
    if t.type = .TOK_ASSIGN ∨ t.type = .TOK_PLUSEQ ∨ t.type = .TOK_MINUSEQ then do
      let (r, ts2) ← parse_assignment pe fuel (nextTs ts1)
      .ok (.assign l r (if t.type = .TOK_ASSIGN then 0
                        else if t.type = .TOK_PLUSEQ then 43 else 45), ts2)
    else .ok (l, ts1)

/-- Translation of `parse_expr` (src/minicc.c lines 601-603), tying the
recursive knot of the precedence tower through the fuel. -/
def parse_expr : Nat → List Token → Except PErr (AST × List Token)
  | 0, _ => .error .fuel
  | fuel + 1, ts => parse_assignment (parse_expr fuel) fuel ts

/-- Statement loop of `parse_block` (src/minicc.c lines 611-613); `ps` is
the statement parser threaded as a parameter. -/
def parse_block_items (ps : List Token → Except PErr (AST × List Token)) :
    Nat → List Token → Except PErr (List AST × List Token)
  | 0, _ => .error .fuel
  | fuel + 1, ts =>
    if (curTok ts).type = .TOK_RBRACE then .ok ([], ts)
    else do
      let (s, ts1) ← ps ts
      let (rest, ts2) ← parse_block_items ps fuel ts1
      .ok (s :: rest, ts2)

/-- Translation of `parse_stmt` (src/minicc.c lines 618-727), with the
block case inlining `parse_block` (lines 605-616). -/
def parse_stmt : Nat → List Token → Except PErr (AST × List Token)
  | 0, _ => .error .fuel
  | fuel + 1, ts =>
    let t := curTok ts
    match t.type with
    | .TOK_INT => do
        let ts1 := nextTs ts
        let name := (curTok ts1).str
        let ts2 ← expect .TOK_IDENT ts1
        if (curTok ts2).type = .TOK_LBRACKET then do
          let ts3 := nextTs ts2
          let size := (curTok ts3).num
          let ts4 ← expect .TOK_NUM ts3
          let ts5 ← expect .TOK_RBRACKET ts4
          if (curTok ts5).type = .TOK_ASSIGN then do
            let (e, ts6) ← parse_expr fuel (nextTs ts5)
            let ts7 ← expect .TOK_SEMI ts6
            .ok (.vardecl name (some e) true size, ts7)
          else do
            let ts6 ← expect .TOK_SEMI ts5
            .ok (.vardecl name none true size, ts6)
        else
          if (curTok ts2).type = .TOK_ASSIGN then do
            let (e, ts3) ← parse_expr fuel (nextTs ts2)
            let ts4 ← expect .TOK_SEMI ts3
            .ok (.vardecl name (some e) false 0, ts4)
          else do
            let ts3 ← expect .TOK_SEMI ts2
            .ok (.vardecl name none false 0, ts3)
    | .TOK_IF => do
        let ts1 ← expect .TOK_LPAREN (nextTs ts)
        let (cond, ts2) ← parse_expr fuel ts1
        let ts3 ← expect .TOK_RPAREN ts2
        let (thenB, ts4) ← parse_stmt fuel ts3
        if (curTok ts4).type = .TOK_ELSE then do
          let (elseB, ts5) ← parse_stmt fuel (nextTs ts4)
          .ok (.if_stmt cond thenB (some elseB), ts5)
        else .ok (.if_stmt cond thenB none, ts4)
    | .TOK_WHILE => do
        let ts1 ← expect .TOK_LPAREN (nextTs ts)
        let (cond, ts2) ← parse_expr fuel ts1
        let ts3 ← expect .TOK_RPAREN ts2
        let (body, ts4) ← parse_stmt fuel ts3
        .ok (.while_stmt cond body, ts4)
    | .TOK_FOR => do
        let ts1 ← expect .TOK_LPAREN (nextTs ts)
        let (ini, ts2) ←
          if (curTok ts1).type = .TOK_INT then do
            let tsA := nextTs ts1
            let name := (curTok tsA).str
            let tsB ← expect .TOK_IDENT tsA
            if (curTok tsB).type = .TOK_ASSIGN then do
              let (e, tsC) ← parse_expr fuel (nextTs tsB)
              .ok ((some (AST.vardecl name (some e) false 0), tsC) :
                     Option AST × List Token)
            else .ok ((some (AST.vardecl name none false 0), tsB) :
                        Option AST × List Token)
          else if (curTok ts1).type ≠ .TOK_SEMI then do
            let (e, tsA) ← parse_expr fuel ts1
            .ok ((some e, tsA) : Option AST × List Token)
          else .ok ((none, ts1) : Option AST × List Token)
        let ts3 ← expect .TOK_SEMI ts2
        let (cond, ts4) ←
          if (curTok ts3).type ≠ .TOK_SEMI then do
            let (e, tsA) ← parse_expr fuel ts3
            .ok ((some e, tsA) : Option AST × List Token)
          else .ok ((none, ts3) : Option AST × List Token)
        let ts5 ← expect .TOK_SEMI ts4
        let (upd, ts6) ←
          if (curTok ts5).type ≠ .TOK_RPAREN then do
            let (e, tsA) ← parse_expr fuel ts5
            .ok ((some e, tsA) : Option AST × List Token)
          else .ok ((none, ts5) : Option AST × List Token)
        let ts7 ← expect .TOK_RPAREN ts6
        let (body, ts8) ← parse_stmt fuel ts7
        .ok (.for_stmt ini cond upd body, ts8)
    | .TOK_RETURN => do
        let ts1 := nextTs ts
        if (curTok ts1).type ≠ .TOK_SEMI then do
          let (e, ts2) ← parse_expr fuel ts1
          let ts3 ← expect .TOK_SEMI ts2
          .ok (.ret (some e), ts3)
        else do
          let ts2 ← expect .TOK_SEMI ts1
          .ok (.ret none, ts2)
    | .TOK_LBRACE => do
        let ts1 ← expect .TOK_LBRACE ts
        let (ss, ts2) ← parse_block_items (parse_stmt fuel) fuel ts1
        let ts3 ← expect .TOK_RBRACE ts2
        .ok (.block ss, ts3)
    | _ => do
        let (e, ts1) ← parse_expr fuel ts
        let ts2 ← expect .TOK_SEMI ts1
        .ok (e, ts2)

/-- Translation of `parse_block` (src/minicc.c lines 605-616), the
standalone form used for function bodies. -/
def parse_block (fuel : Nat) (ts : List Token) : Except PErr (AST × List Token) :=
  match fuel with
  | 0 => .error .fuel
  | fuel + 1 => do
    let ts1 ← expect .TOK_LBRACE ts
    let (ss, ts2) ← parse_block_items (parse_stmt fuel) fuel ts1
    let ts3 ← expect .TOK_RBRACE ts2
    .ok (.block ss, ts3)

/-- Parameter-list loop of `do_parse_program` (src/minicc.c lines
849-854): an optional `int` keyword is skipped before each name. -/
def parse_params : Nat → List Token → Except PErr (List String × List Token)
  | 0, _ => .error .fuel
  | fuel + 1, ts =>
    if (curTok ts).type = .TOK_RPAREN then .ok ([], ts)
    else do
      let ts1 := if (curTok ts).type = .TOK_INT then nextTs ts else ts
      let pname := (curTok ts1).str
      let ts2 ← expect .TOK_IDENT ts1
      if (curTok ts2).type = .TOK_RPAREN then do
        let (rest, ts3) ← parse_params fuel ts2
        .ok (pname :: rest, ts3)
      else do
        let ts3 ← expect .TOK_COMMA ts2
        let (rest, ts4) ← parse_params fuel ts3
        .ok (pname :: rest, ts4)

/-- Top-level declaration loop of `do_parse_program` (src/minicc.c lines
831-882), the authoritative top-level parser (the earlier
`parse_program` is never called).  Returns the globals and the functions
in source order.  Exactly as in the source, the declared name is read
from the token after the type without an identifier check. -/
def do_parse_items : Nat → List Token → Except PErr ((List AST × List AST) × List Token)
  | 0, _ => .error .fuel
  | fuel + 1, ts =>
    if (curTok ts).type = .TOK_EOF then .ok (([], []), ts)
    else
      let t := curTok ts
      if t.type = .TOK_INT ∨ t.type = .TOK_VOID then
        let is_void := t.type = .TOK_VOID
        let ts1 := nextTs ts
        let name := (curTok ts1).str
        let ts2 := nextTs ts1
        if (curTok ts2).type = .TOK_LPAREN then do
          let ts3 ← expect .TOK_LPAREN ts2
          let (params, ts4) ← parse_params fuel ts3
          let ts5 ← expect .TOK_RPAREN ts4
          let (body, ts6) ← parse_block fuel ts5
          let ((gs, fs), ts7) ← do_parse_items fuel ts6
          .ok ((gs, .func name params body is_void :: fs), ts7)
        else if (curTok ts2).type = .TOK_LBRACKET then do
          let ts3 := nextTs ts2
          let size := (curTok ts3).num
          let ts4 ← expect .TOK_NUM ts3
          let ts5 ← expect .TOK_RBRACKET ts4
          if (curTok ts5).type = .TOK_ASSIGN then do
            let (e, ts6) ← parse_expr fuel (nextTs ts5)
            let ts7 ← expect .TOK_SEMI ts6
            let ((gs, fs), ts8) ← do_parse_items fuel ts7
            .ok ((AST.vardecl name (some e) true size :: gs, fs), ts8)
          else do
            let ts6 ← expect .TOK_SEMI ts5
            let ((gs, fs), ts7) ← do_parse_items fuel ts6
            .ok ((AST.vardecl name none true size :: gs, fs), ts7)
        else if (curTok ts2).type = .TOK_ASSIGN then do
          let (e, ts3) ← parse_expr fuel (nextTs ts2)
          let ts4 ← expect .TOK_SEMI ts3
          let ((gs, fs), ts5) ← do_parse_items fuel ts4
          .ok ((AST.vardecl name (some e) false 0 :: gs, fs), ts5)
        else do
          let ts3 ← expect .TOK_SEMI ts2
          let ((gs, fs), ts4) ← do_parse_items fuel ts3
          .ok ((AST.vardecl name none false 0 :: gs, fs), ts4)
      else .error (.diag "Expected function or variable declaration")

/-- Translation of `do_parse_program` (src/minicc.c lines 824-885). -/
def do_parse_program (fuel : Nat) (ts : List Token) : Except PErr (AST × List Token) := do
  let ((gs, fs), ts1) ← do_parse_items fuel ts
  .ok (.program gs fs, ts1)

/-- Symbol-table entry, mirroring the `Symbol` struct of src/minicc.c.
The C booleans `is_global`/`is_param`/`is_array` are ints used as flags;
they are modelled as `Bool`. -/
structure Symbol where
  name : String
  offset : Int
  is_global : Bool
  is_param : Bool
  param_index : Int
  is_array : Bool
  array_size : Int
deriving DecidableEq, Repr

/-- Code generator faults: a fatal diagnostic from `error`, a dereference
of a null `Symbol *` (the unchecked `find_symbol` result in the
array-access assignment branches), or fuel exhaustion (embedding
artifact, never a C behaviour). -/
inductive GenErr where
  | diag (msg : String)
  | nullDeref
  | fuel
deriving DecidableEq, Repr

/-- Code-generation state: the fields of the C `Compiler` struct used
after parsing.  `symbols` is kept most-recent-first, so that appending an
entry is consing and the backward search of `find_symbol` is a
front-to-back search. -/
structure GenSt where
  symbols : List Symbol
  stack_offset : Int
  label_count : Nat
  string_literals : List String
  is_linux : Bool
deriving DecidableEq, Repr

/-- Translation of `find_symbol` (src/minicc.c lines 888-895): the C
loop walks the table from the most recent entry backward, which on the
most-recent-first list is the first match. -/
def find_symbol (st : GenSt) (name : String) : Option Symbol :=
  st.symbols.find? (fun s => s.name = name)

/-- Translation of `add_symbol` (src/minicc.c lines 897-912).  Only a
local non-parameter gets a stack offset (`stack_offset += 8`); for
globals and parameters the C code leaves `offset` unassigned (a stale
array slot) and never reads it, modelled here as 0. -/
def add_symbol (st : GenSt) (name : String) (is_global : Bool) (is_param : Bool)
    (param_index : Int) : Symbol × GenSt :=
  if is_global = false ∧ is_param = false then
    let so := st.stack_offset + 8
    let sym : Symbol := { name := name, offset := so, is_global := is_global,
                          is_param := is_param, param_index := param_index,
                          is_array := false, array_size := 0 }
    (sym, { st with symbols := sym :: st.symbols, stack_offset := so })
  else
    let sym : Symbol := { name := name, offset := 0, is_global := is_global,
                          is_param := is_param, param_index := param_index,
                          is_array := false, array_size := 0 }
    (sym, { st with symbols := sym :: st.symbols })

set_option maxHeartbeats 1000000

/-- AArch64 output lines, one constructor per distinct `emit` format
string of the AArch64 generator (src/minicc.c lines 1244-1656).  The
comment of each constructor is the exact emitted text. -/
inductive AInstr where
  | movW0 (n : Int)        -- mov w0, #n
  | movX0 (n : Int)        -- mov x0, #n
  | movkX0 (n : Int)       -- movk x0, #n, lsl #16
  | adrpStrX0 (idx : Nat)  -- adrp x0, _str<idx>@PAGE
  | addStrX0 (idx : Nat)   -- add x0, x0, _str<idx>@PAGEOFF
  | adrpX0 (name : String) -- adrp x0, _<name>@PAGE
  | addX0 (name : String)  -- add x0, x0, _<name>@PAGEOFF
  | ldrW0X0                -- ldr w0, [x0]
  | ldrW0fp (off : Int)    -- ldr w0, [x29, #<off>]
  | subX0fp (off : Int)    -- sub x0, x29, #<off>
  | adrpX1 (name : String) -- adrp x1, _<name>@PAGE
  | addX1 (name : String)  -- add x1, x1, _<name>@PAGEOFF
  | subX1fp (off : Int)    -- sub x1, x29, #<off>
  | pushX0                 -- str x0, [sp, #-16]!
  | popX0                  -- ldr x0, [sp], #16
  | popX2                  -- ldr x2, [sp], #16
  | popX (i : Nat)         -- ldr x<i>, [sp], #16
  | ldrW0idx               -- ldr w0, [x1, x0, lsl #2]
  | strW2idx               -- str w2, [x1, x0, lsl #2]
  | movX1X0                -- mov x1, x0
  | movW1W0                -- mov w1, w0
  | movW0W1                -- mov w0, w1
  | movW0W2                -- mov w0, w2
  | addW                   -- add w0, w0, w1
  | subW                   -- sub w0, w0, w1
  | mulW                   -- mul w0, w0, w1
  | sdivW                  -- sdiv w0, w0, w1
  | sdivW2                 -- sdiv w2, w0, w1
  | msubW                  -- msub w0, w2, w1, w0
  | cmpW0W1                -- cmp w0, w1
  | cmpW0zero              -- cmp w0, #0
  | csetEq                 -- cset w0, eq
  | csetNe                 -- cset w0, ne
  | csetLt                 -- cset w0, lt
  | csetGt                 -- cset w0, gt
  | csetLe                 -- cset w0, le
  | csetGe                 -- cset w0, ge
  | cbzW0 (l : Nat)        -- cbz w0, L<l>
  | cbnzW0 (l : Nat)       -- cbnz w0, L<l>
  | bLbl (l : Nat)         -- b L<l>
  | labelDef (l : Nat)     -- L<l>:
  | negW                   -- neg w0, w0
  | addW011                -- add w0, w1, w0
  | subW011                -- sub w0, w1, w0
  | strW0X1                -- str w0, [x1]
  | strW0fp (off : Int)    -- str w0, [x29, #<off>]
  | strXfp (i : Nat)       -- str x<i>, [x29, #-(i+1)*8]
  | blCall (name : String) -- bl _<name>
  | globlDir (s : String)  -- .globl <s>
  | p2align2               -- .p2align 2
  | asmLabel (s : String)  -- <s>:
  | stpPush                -- stp x29, x30, [sp, #-16]!
  | movFPsp                -- mov x29, sp
  | subSP256               -- sub sp, sp, #256
  | movSPfp                -- mov sp, x29
  | ldpPop                 -- ldp x29, x30, [sp], #16
  | retInstr               -- ret
  | sectionDir (s : String)
  | zeroDir (n : Int)      -- .zero <n>
  | longDir (n : Int)      -- .long <n>
  | ascizDir (s : String)  -- .asciz "<s>"
  | blank                  -- empty line

/-- Operator switch of the AST_BINOP case of `gen_expr_arm64`
(src/minicc.c lines 1339-1390): the instructions emitted after both
operands are in place, together with the state change (the `&&` and `||`
cases take a fresh control label).  An operator token with no case in
the C switch emits nothing. -/
def arm64_binop_code (op : TokenType) (st2 : GenSt) : GenSt × List AInstr :=
  match op with
  | .TOK_PLUS => (st2, [.addW])
  | .TOK_MINUS => (st2, [.subW])
  | .TOK_STAR => (st2, [.mulW])
  | .TOK_SLASH => (st2, [.sdivW])
  | .TOK_PERCENT => (st2, [.sdivW2, .msubW])
  | .TOK_EQ => (st2, [.cmpW0W1, .csetEq])
  | .TOK_NE => (st2, [.cmpW0W1, .csetNe])
  | .TOK_LT => (st2, [.cmpW0W1, .csetLt])
  | .TOK_GT => (st2, [.cmpW0W1, .csetGt])
  | .TOK_LE => (st2, [.cmpW0W1, .csetLe])
  | .TOK_GE => (st2, [.cmpW0W1, .csetGe])
  | .TOK_AND =>
      let lbl := st2.label_count
      ({ st2 with label_count := lbl + 1 },
       [.cbzW0 lbl, .movW0W1, .labelDef lbl, .cmpW0zero, .csetNe])
  | .TOK_OR =>
      let lbl := st2.label_count
      ({ st2 with label_count := lbl + 1 },
       [.cbnzW0 lbl, .movW0W1, .labelDef lbl, .cmpW0zero, .csetNe])
  | _ => (st2, [])

/-- Operator switch of the AST_UNOP case of `gen_expr_arm64`
(src/minicc.c lines 1396-1402). -/
def arm64_unop_code (op : TokenType) : List AInstr :=
  match op with
  | .TOK_MINUS => [.negW]
  | .TOK_NOT => [.cmpW0zero, .csetEq]
  | _ => []

/-- Translation of `gen_expr_arm64` (src/minicc.c lines 1258-1469).
Returns the updated compiler state and the emitted instruction list.
Frame-relative loads and stores carry the signed byte offset actually
printed after `x29`: `-(param_index+1)*8` for parameters and `-offset`
for locals.  In the array-access assignment branch the `find_symbol`
result is used without a null check in the source, modelled by
`.error .nullDeref` when the lookup fails. -/
def gen_expr_arm64 (fuel : Nat) (st : GenSt) (e : AST) :
    Except GenErr (GenSt × List AInstr) :=
  match fuel with
  | 0 => .error .fuel
  | fuel + 1 =>
    match e with
    | .num n =>
      if 0 ≤ n ∧ n < 65536 then .ok (st, [.movW0 n])
      else .ok (st, [.movX0 (Int.land n 65535)] ++
        (if n > 65535 then [.movkX0 (Int.land (Int.shiftRight n 16) 65535)] else []))
    | .strLit s =>
      let idx := st.string_literals.length
      .ok ({ st with string_literals := st.string_literals ++ [s] },
           [.adrpStrX0 idx, .addStrX0 idx])
    | .var name =>
      match find_symbol st name with
      | none => .error (.diag ("Undefined variable: " ++ name))
      | some sym =>
        if sym.is_global then
          .ok (st, [.adrpX0 name, .addX0 name] ++ (if sym.is_array then [] else [.ldrW0X0]))
        else if sym.is_param then
          .ok (st, [.ldrW0fp (-(sym.param_index + 1) * 8)])
        else
          .ok (st, [.ldrW0fp (-sym.offset)])
    | .addr name =>
      match find_symbol st name with
      | none => .error (.diag ("Undefined variable: " ++ name))
      | some sym =>
        if sym.is_global then .ok (st, [.adrpX0 name, .addX0 name])
        else .ok (st, [.subX0fp sym.offset])
    | .array_access name idx =>
      match find_symbol st name with
      | none => .error (.diag ("Undefined variable: " ++ name))
      | some sym => do
        let (st1, ci) ← gen_expr_arm64 fuel st idx
        let base := if sym.is_global then [AInstr.adrpX1 name, AInstr.addX1 name]
                    else [AInstr.subX1fp sym.offset]
        .ok (st1, ci ++ [.pushX0] ++ base ++ [.popX0, .ldrW0idx])
    | .binop op l r => do
        let (st1, cl) ← gen_expr_arm64 fuel st l
        let (st2, cr) ← gen_expr_arm64 fuel st1 r
        let pre := cl ++ [AInstr.pushX0] ++ cr ++ [AInstr.movX1X0, AInstr.popX0]
        let (st3, opc) := arm64_binop_code op st2
        .ok (st3, pre ++ opc)
    | .unop op o => do
        let (st1, co) ← gen_expr_arm64 fuel st o
        .ok (st1, co ++ arm64_unop_code op)
    | .assign l r op => do
        let (st1, cr) ← gen_expr_arm64 fuel st r
        match l with
        | .var name =>
          match find_symbol st1 name with
          | none => .error (.diag ("Undefined variable: " ++ name))
          | some sym => do
            let (st2, compound) ←
              if op ≠ 0 then do
                let (stA, cl) ← gen_expr_arm64 fuel st1 l
                .ok (stA, [AInstr.pushX0] ++ cl ++ [AInstr.movW1W0, AInstr.popX0] ++
                      (if op = 43 then [AInstr.addW011] else [AInstr.subW011]))
              else .ok (st1, ([] : List AInstr))
            let store :=
              if sym.is_global then [AInstr.adrpX1 name, AInstr.addX1 name, AInstr.strW0X1]
              else if sym.is_param then [AInstr.strW0fp (-(sym.param_index + 1) * 8)]
              else [AInstr.strW0fp (-sym.offset)]
            .ok (st2, cr ++ compound ++ store)
        | .array_access name idx => do
            let (st2, ci) ← gen_expr_arm64 fuel st1 idx
            match find_symbol st2 name with
            | none => .error .nullDeref
            | some sym =>
              let base := if sym.is_global then [AInstr.adrpX1 name, AInstr.addX1 name]
                          else [AInstr.subX1fp sym.offset]
              .ok (st2, cr ++ [.pushX0] ++ ci ++ [.pushX0] ++ base ++
                    [.popX0, .popX2, .strW2idx, .movW0W2])
        | _ => .ok (st1, cr)
    | .call name args => do
        let (st1, cArgs) ← args.foldr
          (fun a acc => do
            let (stAcc, cAcc) ← acc
            let (stA, cA) ← gen_expr_arm64 fuel stAcc a
            .ok (stA, cAcc ++ cA ++ [AInstr.pushX0]))
          (.ok (st, ([] : List AInstr)))
        let pops := (List.range (min args.length 8)).map (fun i => AInstr.popX i)
        .ok (st1, cArgs ++ pops ++ [.blCall name])
    | _ => .error (.diag "Cannot generate expression")

/-- Translation of `gen_stmt_arm64` (src/minicc.c lines 1473-1560).  In
the array declaration case the source mutates the freshly added symbol in
place (`sym->offset = c->stack_offset` after growing the offset), which
on the most-recent-first list is a head replacement. -/
def gen_stmt_arm64 (fuel : Nat) (st : GenSt) (s : AST) :
    Except GenErr (GenSt × List AInstr) :=
  match fuel with
  | 0 => .error .fuel
  | fuel + 1 =>
    match s with
    | .vardecl name ini is_array array_size =>
      let (sym0, st1) := add_symbol st name false false 0
      let (sym, st2) :=
        if is_array then
          let so := st1.stack_offset + (array_size - 1) * 4
          let sym' : Symbol :=
            { sym0 with is_array := true, array_size := array_size, offset := so }
          (sym', { st1 with stack_offset := so, symbols := sym' :: st1.symbols.tail })
        else (sym0, st1)
      match ini with
      | some e => do
          let (st3, ce) ← gen_expr_arm64 fuel st2 e
          .ok (st3, ce ++ [.strW0fp (-sym.offset)])
      | none => .ok (st2, [])
    | .if_stmt cond thenB elseB =>
        let else_label := st.label_count
        let end_label := st.label_count + 1
        let stL := { st with label_count := st.label_count + 2 }
        do
          let (st1, cc) ← gen_expr_arm64 fuel stL cond
          let (st2, ct) ← gen_stmt_arm64 fuel st1 thenB
          match elseB with
          | some eb => do
              let (st3, ce) ← gen_stmt_arm64 fuel st2 eb
              .ok (st3, cc ++ [.cbzW0 else_label] ++ ct ++
                    [.bLbl end_label, .labelDef else_label] ++ ce ++ [.labelDef end_label])
          | none =>
              .ok (st2, cc ++ [.cbzW0 else_label] ++ ct ++
                    [.bLbl end_label, .labelDef else_label, .labelDef end_label])
    | .while_stmt cond body =>
        let start_label := st.label_count
        let end_label := st.label_count + 1
        let stL := { st with label_count := st.label_count + 2 }
        do
          let (st1, cc) ← gen_expr_arm64 fuel stL cond
          let (st2, cb) ← gen_stmt_arm64 fuel st1 body
          .ok (st2, [.labelDef start_label] ++ cc ++ [.cbzW0 end_label] ++ cb ++
                [.bLbl start_label, .labelDef end_label])
    | .for_stmt ini cond upd body =>
        let start_label := st.label_count
        let end_label := st.label_count + 1
        let stL := { st with label_count := st.label_count + 2 }
        do
          let (st1, cInit) ← match ini with
            | some i => gen_stmt_arm64 fuel stL i
            | none => .ok (stL, ([] : List AInstr))
          let (st2, cCond) ← match cond with
            | some cnd => do
                let (stC, cc) ← gen_expr_arm64 fuel st1 cnd
                .ok (stC, cc ++ [AInstr.cbzW0 end_label])
            | none => .ok (st1, ([] : List AInstr))
          let (st3, cb) ← gen_stmt_arm64 fuel st2 body
          let (st4, cu) ← match upd with
            | some u => gen_expr_arm64 fuel st3 u
            | none => .ok (st3, ([] : List AInstr))
          .ok (st4, cInit ++ [.labelDef start_label] ++ cCond ++ cb ++ cu ++
                [.bLbl start_label, .labelDef end_label])
    | .ret v => do
        let (st1, cv) ← match v with
          | some e => gen_expr_arm64 fuel st e
          | none => .ok (st, ([] : List AInstr))
        .ok (st1, cv ++ [.movSPfp, .ldpPop, .retInstr])
    | .block stmts =>
        stmts.foldlM (fun (acc : GenSt × List AInstr) stm => do
          let (st', c) ← gen_stmt_arm64 fuel acc.1 stm
          .ok (st', acc.2 ++ c)) (st, ([] : List AInstr))
    | _ => gen_expr_arm64 fuel st s

/-- Translation of `gen_func_arm64` (src/minicc.c lines 1562-1595):
reset the local stack offset, save the symbol count (here the symbol
list), emit header and prologue, bind the parameters, set the local
offset base to `8 * nparams`, generate the body, emit the implicit
epilogue, and restore the symbol table.  A non-function node is never
passed by the caller; it is mapped to a diagnostic here to make the
match total. -/
def gen_func_arm64 (fuel : Nat) (st : GenSt) (f : AST) :
    Except GenErr (GenSt × List AInstr) :=
  match f with
  | .func name params body _ =>
    let saved_symbols := st.symbols
    let st0 := { st with stack_offset := 0 }
    let header := [AInstr.globlDir ("_" ++ name), AInstr.p2align2,
                   AInstr.asmLabel ("_" ++ name)]
    let prologue := [AInstr.stpPush, AInstr.movFPsp, AInstr.subSP256]
    let (stP, paramCode) := params.enum.foldl
      (fun (acc : GenSt × List AInstr) (p : Nat × String) =>
        let (_, st') := add_symbol acc.1 p.2 false true (Int.ofNat p.1)
        (st', acc.2 ++ [AInstr.strXfp p.1]))
      (st0, ([] : List AInstr))
    let stB := { stP with stack_offset := (params.length : Int) * 8 }
    do
      let (st1, cb) ← gen_stmt_arm64 fuel stB body
      .ok ({ st1 with symbols := saved_symbols },
           header ++ prologue ++ paramCode ++ cb ++
           [.movSPfp, .ldpPop, .retInstr, .blank])
  | _ => .error (.diag "not a function")

/-- Reading of the `init->num` union field by the data-section emitters
(src/minicc.c line 1638): well defined only when the initializer is a
number literal; any other node reads the first union word, modelled as 0. -/
def ast_num_field : AST → Int
  | .num n => n
  | _ => 0

/-- Translation of `gen_program_arm64` (src/minicc.c lines 1597-1656):
add the globals to the symbol table, emit the text section and every
function, then the data section with the globals and the read-only
section with the collected string literals. -/
def gen_program_arm64 (fuel : Nat) (st : GenSt) (p : AST) :
    Except GenErr (GenSt × List AInstr) :=
  match p with
  | .program globals funcs =>
    let stG := globals.foldl (fun acc g =>
      match g with
      | .vardecl name _ is_array array_size =>
          let (sym, st') := add_symbol acc name true false 0
          if is_array then
            { st' with symbols :=
                ({ sym with is_array := true, array_size := array_size } :: st'.symbols.tail) }
          else st'
      | _ => acc) st
    let sectText := if stG.is_linux then [AInstr.sectionDir ".section .text", AInstr.blank]
                    else [AInstr.sectionDir ".section __TEXT,__text", AInstr.blank]
    do
      let (st1, funcCode) ← funcs.foldlM (fun (acc : GenSt × List AInstr) f => do
          let (st', c) ← gen_func_arm64 fuel acc.1 f
          .ok (st', acc.2 ++ c)) (stG, ([] : List AInstr))
      let px := if st1.is_linux then "" else "_"
      let sectData := if st1.is_linux then [AInstr.sectionDir ".section .data"]
                      else [AInstr.sectionDir ".section __DATA,__data"]
      let dataCode := globals.foldl (fun acc g =>
        match g with
        | .vardecl name ini is_array array_size =>
            acc ++ [AInstr.globlDir (px ++ name), AInstr.p2align2,
                    AInstr.asmLabel (px ++ name)] ++
            (if is_array then [AInstr.zeroDir (array_size * 4)]
             else match ini with
               | some e => [AInstr.longDir (ast_num_field e)]
               | none => [AInstr.longDir 0]) ++ [AInstr.blank]
        | _ => acc) ([] : List AInstr)
      let sectRo := if st1.is_linux then [AInstr.sectionDir ".section .rodata"]
                    else [AInstr.sectionDir ".section __TEXT,__cstring"]
      let strCode := st1.string_literals.enum.foldl
        (fun acc (q : Nat × String) =>
          acc ++ [AInstr.asmLabel (px ++ "str" ++ toString q.1), AInstr.ascizDir q.2])
        ([] : List AInstr)
      .ok (st1, sectText ++ funcCode ++ sectData ++ dataCode ++ sectRo ++ strCode)
  | _ => .error (.diag "not a program")

/-- Initial compiler state as set by `compile` (src/minicc.c lines
2070-2079): the label counter, symbol table, string table and stack
offset are initialized exactly once, before code generation. -/
def init_state (is_linux : Bool) : GenSt :=
  { symbols := [], stack_offset := 0, label_count := 0,
    string_literals := [], is_linux := is_linux }

/-- AArch64 half of `compile` (src/minicc.c lines 2095-2100). -/
def compile_arm64 (fuel : Nat) (is_linux : Bool) (p : AST) :
    Except GenErr (GenSt × List AInstr) :=
  gen_program_arm64 fuel (init_state is_linux) p

/-- Platform symbol name marker of `sym_prefix` (src/minicc.c lines
1659-1661): empty on Linux, an underscore on macOS. -/
def symPfx (st : GenSt) : String := if st.is_linux then "" else "_"

/-- Output lines of the x86-64 generator, one constructor per distinct
`emit` format string of `gen_expr_x64` (src/minicc.c lines 1665-1885).
The comment of each constructor is the exact emitted text; constructors
that print a symbol carry the already-prefixed name, and frame-relative
accesses carry the signed byte offset printed before `(%rbp)`. -/
inductive XInstr where
  | movlImm (n : Int)        -- movl $n, %eax
  | leaStrRax (s : String)   -- leaq <s>(%rip), %rax   (string literal label)
  | movlVarRax (s : String)  -- movl <s>(%rip), %eax
  | leaVarRax (s : String)   -- leaq <s>(%rip), %rax
  | movlRbpRax (off : Int)   -- movl <off>(%rbp), %eax
  | leaRbpRax (off : Int)    -- leaq <off>(%rbp), %rax
  | leaVarRcx (s : String)   -- leaq <s>(%rip), %rcx
  | leaRbpRcx (off : Int)    -- leaq <off>(%rbp), %rcx
  | pushRax                  -- pushq %rax
  | popRax                   -- popq %rax
  | popRcx                   -- popq %rcx
  | popRdx                   -- popq %rdx
  | movlIdxLoad              -- movl (%rcx,%rax,4), %eax
  | movlIdxStore             -- movl %edx, (%rcx,%rax,4)
  | movEaxEcx                -- movl %eax, %ecx
  | movEcxEax                -- movl %ecx, %eax
  | movEdxEax                -- movl %edx, %eax
  | addl                     -- addl %ecx, %eax
  | subl                     -- subl %ecx, %eax
  | imull                    -- imull %ecx, %eax
  | cltd                     -- cltd
  | idivl                    -- idivl %ecx
  | cmplEcxEax               -- cmpl %ecx, %eax
  | seteAl                   -- sete %al
  | setneAl                  -- setne %al
  | setlAl                   -- setl %al
  | setgAl                   -- setg %al
  | setleAl                  -- setle %al
  | setgeAl                  -- setge %al
  | movzblAlEax              -- movzbl %al, %eax
  | testlEax                 -- testl %eax, %eax
  | je (l : Nat)             -- je L<l>
  | jne (l : Nat)            -- jne L<l>
  | jmp (l : Nat)            -- jmp L<l>
  | labelDef (l : Nat)       -- L<l>:
  | negl                     -- negl %eax
  | sublEaxEcx               -- subl %eax, %ecx   (first half of compound -=)
  | movlToVar (s : String)   -- movl %eax, <s>(%rip)
  | movlToRbp (off : Int)    -- movl %eax, <off>(%rbp)
  | popArg (i : Nat)         -- popq %<r>, r = rdi rsi rdx rcx r8 r9 at index i
  | pushRbx                  -- pushq %rbx
  | movRspRbx                -- movq %rsp, %rbx
  | andRsp16                 -- andq $-16, %rsp
  | xorEax                   -- xorl %eax, %eax
  | callq (s : String)       -- callq <s>
  | movRbxRsp                -- movq %rbx, %rsp
  | popRbx                   -- popq %rbx

/-- Translation of `gen_expr_x64` (src/minicc.c lines 1665-1885).  As in
the AArch64 generator, the array-access assignment branch uses the
`find_symbol` result without a null check, modelled by `.error
.nullDeref`; the compound `-=` on a variable emits one format string
containing two instructions (`subl %eax, %ecx` and `movl %ecx, %eax`),
modelled as the two corresponding constructors. -/
def gen_expr_x64 (fuel : Nat) (st : GenSt) (e : AST) :
    Except GenErr (GenSt × List XInstr) :=
  match fuel with
  | 0 => .error .fuel
  | fuel + 1 =>
    match e with
    | .num n => .ok (st, [.movlImm n])
    | .strLit s =>
      let idx := st.string_literals.length
      .ok ({ st with string_literals := st.string_literals ++ [s] },
           [.leaStrRax (symPfx st ++ "str" ++ toString idx)])
    | .var name =>
      match find_symbol st name with
      | none => .error (.diag ("Undefined variable: " ++ name))
      | some sym =>
        if sym.is_global then
          if sym.is_array then .ok (st, [.leaVarRax (symPfx st ++ name)])
          else .ok (st, [.movlVarRax (symPfx st ++ name)])
        else if sym.is_param then
          .ok (st, [.movlRbpRax (-(sym.param_index + 1) * 8)])
        else
          .ok (st, [.movlRbpRax (-sym.offset)])
    | .addr name =>
      match find_symbol st name with
      | none => .error (.diag ("Undefined variable: " ++ name))
      | some sym =>
        if sym.is_global then .ok (st, [.leaVarRax (symPfx st ++ name)])
        else .ok (st, [.leaRbpRax (-sym.offset)])
    | .array_access name idx =>
      match find_symbol st name with
      | none => .error (.diag ("Undefined variable: " ++ name))
      | some sym => do
        let (st1, ci) ← gen_expr_x64 fuel st idx
        let base := if sym.is_global then [XInstr.leaVarRcx (symPfx st ++ name)]
                    else [XInstr.leaRbpRcx (-sym.offset)]
        .ok (st1, ci ++ [.pushRax] ++ base ++ [.popRax, .movlIdxLoad])
    | .binop op l r => do
        let (st1, cl) ← gen_expr_x64 fuel st l
        let (st2, cr) ← gen_expr_x64 fuel st1 r
        let pre := cl ++ [XInstr.pushRax] ++ cr ++ [XInstr.movEaxEcx, XInstr.popRax]
        match op with
        | .TOK_PLUS => .ok (st2, pre ++ [.addl])
        | .TOK_MINUS => .ok (st2, pre ++ [.subl])
        | .TOK_STAR => .ok (st2, pre ++ [.imull])
        | .TOK_SLASH => .ok (st2, pre ++ [.cltd, .idivl])
        | .TOK_PERCENT => .ok (st2, pre ++ [.cltd, .idivl, .movEdxEax])
        | .TOK_EQ => .ok (st2, pre ++ [.cmplEcxEax, .seteAl, .movzblAlEax])
        | .TOK_NE => .ok (st2, pre ++ [.cmplEcxEax, .setneAl, .movzblAlEax])
        | .TOK_LT => .ok (st2, pre ++ [.cmplEcxEax, .setlAl, .movzblAlEax])
        | .TOK_GT => .ok (st2, pre ++ [.cmplEcxEax, .setgAl, .movzblAlEax])
        | .TOK_LE => .ok (st2, pre ++ [.cmplEcxEax, .setleAl, .movzblAlEax])
        | .TOK_GE => .ok (st2, pre ++ [.cmplEcxEax, .setgeAl, .movzblAlEax])
        | .TOK_AND =>
            let lbl := st2.label_count
            .ok ({ st2 with label_count := lbl + 1 },
                 pre ++ [.testlEax, .je lbl, .movEcxEax, .labelDef lbl,
                         .testlEax, .setneAl, .movzblAlEax])
        | .TOK_OR =>
            let lbl := st2.label_count
            .ok ({ st2 with label_count := lbl + 1 },
                 pre ++ [.testlEax, .jne lbl, .movEcxEax, .labelDef lbl,
                         .testlEax, .setneAl, .movzblAlEax])
        | _ => .ok (st2, pre)
    | .unop op o => do
        let (st1, co) ← gen_expr_x64 fuel st o
        match op with
        | .TOK_MINUS => .ok (st1, co ++ [.negl])
        | .TOK_NOT => .ok (st1, co ++ [.testlEax, .seteAl, .movzblAlEax])
        | _ => .ok (st1, co)
    | .assign l r op => do
        let (st1, cr) ← gen_expr_x64 fuel st r
        match l with
        | .var name =>
          match find_symbol st1 name with
          | none => .error (.diag ("Undefined variable: " ++ name))
          | some sym => do
            let (st2, compound) ←
              if op ≠ 0 then do
                let (stA, cl) ← gen_expr_x64 fuel st1 l
                .ok (stA, [XInstr.pushRax] ++ cl ++ [XInstr.movEaxEcx, XInstr.popRax] ++
                      (if op = 43 then [XInstr.addl]
                       else [XInstr.sublEaxEcx, XInstr.movEcxEax]))
              else .ok (st1, ([] : List XInstr))
            let store :=
              if sym.is_global then [XInstr.movlToVar (symPfx st1 ++ name)]
              else if sym.is_param then [XInstr.movlToRbp (-(sym.param_index + 1) * 8)]
              else [XInstr.movlToRbp (-sym.offset)]
            .ok (st2, cr ++ compound ++ store)
        | .array_access name idx => do
            let (st2, ci) ← gen_expr_x64 fuel st1 idx
            match find_symbol st2 name with
            | none => .error .nullDeref
            | some sym =>
              let base := if sym.is_global then [XInstr.leaVarRcx (symPfx st2 ++ name)]
                          else [XInstr.leaRbpRcx (-sym.offset)]
              .ok (st2, cr ++ [.pushRax] ++ ci ++ [.pushRax] ++ base ++
                    [.popRax, .popRdx, .movlIdxStore, .movEdxEax])
        | _ => .ok (st1, cr)
    | .call name args => do
        let (st1, cArgs) ← args.foldr
          (fun a acc => do
            let (stAcc, cAcc) ← acc
            let (stA, cA) ← gen_expr_x64 fuel stAcc a
            .ok (stA, cAcc ++ cA ++ [XInstr.pushRax]))
          (.ok (st, ([] : List XInstr)))
        let pops := (List.range (min args.length 6)).map (fun i => XInstr.popArg i)
        .ok (st1, cArgs ++ pops ++
              [.pushRbx, .movRspRbx, .andRsp16, .xorEax,
               .callq (symPfx st1 ++ name), .movRbxRsp, .popRbx])
    | _ => .error (.diag "Cannot generate expression")

/-- Idealised AArch64 machine state for executing emitted straight-line
code: the registers used by the generator, the stack pointer and frame
pointer, the last comparison (standing for the condition flags), and
byte-addressed memory as a function.  Register values are unbounded
integers; the compiler only ever stores C `int` values in them. -/
structure AState where
  x0 : Int
  x1 : Int
  x2 : Int
  sp : Int
  fp : Int
  cmpL : Int
  cmpR : Int
  mem : Int → Int

/-- Memory update. -/
def memSet (m : Int → Int) (a v : Int) : Int → Int :=
  fun x => if x = a then v else m x

/-- Semantics of one non-branching AArch64 instruction; `none` for
instructions whose semantics the claims never need (global addressing,
calls, directives). -/
def astep (i : AInstr) (s : AState) : Option AState :=
  match i with
  | .movW0 n => some { s with x0 := n }
  | .movX0 n => some { s with x0 := n }
  | .movkX0 n => some { s with x0 := s.x0 - (s.x0 / 65536 % 65536) * 65536 + n * 65536 }
  | .pushX0 => some { s with sp := s.sp - 16, mem := memSet s.mem (s.sp - 16) s.x0 }
  | .popX0 => some { s with x0 := s.mem s.sp, sp := s.sp + 16 }
  | .popX2 => some { s with x2 := s.mem s.sp, sp := s.sp + 16 }
  | .popX i =>
    match i with
    | 0 => some { s with x0 := s.mem s.sp, sp := s.sp + 16 }
    | 1 => some { s with x1 := s.mem s.sp, sp := s.sp + 16 }
    | 2 => some { s with x2 := s.mem s.sp, sp := s.sp + 16 }
    | _ => none
  | .movX1X0 => some { s with x1 := s.x0 }
  | .movW1W0 => some { s with x1 := s.x0 }
  | .movW0W1 => some { s with x0 := s.x1 }
  | .movW0W2 => some { s with x0 := s.x2 }
  | .subX1fp off => some { s with x1 := s.fp - off }
  | .subX0fp off => some { s with x0 := s.fp - off }
  | .ldrW0fp off => some { s with x0 := s.mem (s.fp + off) }
  | .strW0fp off => some { s with mem := memSet s.mem (s.fp + off) s.x0 }
  | .ldrW0idx => some { s with x0 := s.mem (s.x1 + 4 * s.x0) }
  | .strW2idx => some { s with mem := memSet s.mem (s.x1 + 4 * s.x0) s.x2 }
  | .addW => some { s with x0 := s.x0 + s.x1 }
  | .subW => some { s with x0 := s.x0 - s.x1 }
  | .mulW => some { s with x0 := s.x0 * s.x1 }
  | .addW011 => some { s with x0 := s.x1 + s.x0 }
  | .subW011 => some { s with x0 := s.x1 - s.x0 }
  | .cmpW0W1 => some { s with cmpL := s.x0, cmpR := s.x1 }
  | .cmpW0zero => some { s with cmpL := s.x0, cmpR := 0 }
  | .csetEq => some { s with x0 := if s.cmpL = s.cmpR then 1 else 0 }
  | .csetNe => some { s with x0 := if s.cmpL = s.cmpR then 0 else 1 }
  | .csetLt => some { s with x0 := if s.cmpL < s.cmpR then 1 else 0 }
  | .csetGt => some { s with x0 := if s.cmpR < s.cmpL then 1 else 0 }
  | .csetLe => some { s with x0 := if s.cmpL ≤ s.cmpR then 1 else 0 }
  | .csetGe => some { s with x0 := if s.cmpR ≤ s.cmpL then 1 else 0 }
  | .negW => some { s with x0 := -s.x0 }
  | .labelDef _ => some s
  | _ => none

/-- Forward search for a label definition, the resolution of a forward
branch within the remaining instruction list. -/
def drop_to_label (l : Nat) : List AInstr → Option (List AInstr)
  | [] => none
  | .labelDef m :: rest => if m = l then some rest else drop_to_label l rest
  | _ :: rest => drop_to_label l rest

/-- Outcome of decoding one instruction in a state: an ordinary state
transition, a taken branch to a label, or a fault (unmodelled
instruction). -/
inductive StepKind where
  | step (s : AState)
  | jump (l : Nat)
  | fault

/-- Decoding of one AArch64 instruction: the conditional branches of the
generator test the accumulator, everything else is `astep`. -/
def decode (i : AInstr) (s : AState) : StepKind :=
  match i with
  | .cbzW0 l => if s.x0 = 0 then .jump l else .step s
  | .cbnzW0 l => if s.x0 = 0 then .step s else .jump l
  | .bLbl l => .jump l
  | _ =>
    match astep i s with
    | some s' => .step s'
    | none => .fault

/-- Executor for emitted AArch64 code: runs instruction by instruction,
resolving the forward branches of the generator; `none` on an
unmodelled instruction, an unresolved label or fuel exhaustion. -/
def exec_arm : Nat → List AInstr → AState → Option AState
  | _, [], s => some s
  | 0, _ :: _, _ => none
  | fuel + 1, i :: rest, s =>
    match decode i s with
    | .step s' => exec_arm fuel rest s'
    | .jump l =>
      match drop_to_label l rest with
      | some r => exec_arm fuel r s
      | none => none
    | .fault => none

/-- Idealised x86-64 machine state: the registers used by the generator,
the zero flag as set by `testl`, and the stack as a list of pushed
values (the x86-64 generator uses `pushq`/`popq` only). -/
structure XState where
  rax : Int
  rcx : Int
  rdx : Int
  rdi : Int
  rsi : Int
  zf : Bool
  stack : List Int

/-- Semantics of one non-branching x86-64 instruction; the `sete`-family
writes the low byte of `%rax` and `movzbl` zero-extends it, modelled
with euclidean remainder by 256. -/
def xstep (i : XInstr) (s : XState) : Option XState :=
  match i with
  | .movlImm n => some { s with rax := n }
  | .pushRax => some { s with stack := s.rax :: s.stack }
  | .popRax =>
    match s.stack with
    | v :: r => some { s with rax := v, stack := r }
    | [] => none
  | .popRcx =>
    match s.stack with
    | v :: r => some { s with rcx := v, stack := r }
    | [] => none
  | .popRdx =>
    match s.stack with
    | v :: r => some { s with rdx := v, stack := r }
    | [] => none
  | .popArg i =>
    match s.stack with
    | v :: r =>
      match i with
      | 0 => some { s with rdi := v, stack := r }
      | 1 => some { s with rsi := v, stack := r }
      | 2 => some { s with rdx := v, stack := r }
      | _ => none
    | [] => none
  | .movEaxEcx => some { s with rcx := s.rax }
  | .movEcxEax => some { s with rax := s.rcx }
  | .movEdxEax => some { s with rax := s.rdx }
  | .addl => some { s with rax := s.rax + s.rcx }
  | .subl => some { s with rax := s.rax - s.rcx }
  | .imull => some { s with rax := s.rax * s.rcx }
  | .sublEaxEcx => some { s with rcx := s.rcx - s.rax }
  | .negl => some { s with rax := -s.rax }
  | .testlEax => some { s with zf := decide (s.rax = 0) }
  | .seteAl => some { s with rax := s.rax - s.rax % 256 + (if s.zf then 1 else 0) }
  | .setneAl => some { s with rax := s.rax - s.rax % 256 + (if s.zf then 0 else 1) }
  | .movzblAlEax => some { s with rax := s.rax % 256 }
  | .labelDef _ => some s
  | _ => none

/-- Forward search for a label definition in x86-64 code. -/
def drop_to_label_x (l : Nat) : List XInstr → Option (List XInstr)
  | [] => none
  | .labelDef m :: rest => if m = l then some rest else drop_to_label_x l rest
  | _ :: rest => drop_to_label_x l rest

/-- Outcome of decoding one x86-64 instruction. -/
inductive XStepKind where
  | step (s : XState)
  | jump (l : Nat)
  | fault

/-- Decoding of one x86-64 instruction: the conditional jumps of the
generator test the zero flag, everything else is `xstep`. -/
def xdecode (i : XInstr) (s : XState) : XStepKind :=
  match i with
  | .je l => if s.zf then .jump l else .step s
  | .jne l => if s.zf then .step s else .jump l
  | .jmp l => .jump l
  | _ =>
    match xstep i s with
    | some s' => .step s'
    | none => .fault

/-- Executor for emitted x86-64 code, resolving the generator's forward
conditional jumps. -/
def exec_x64 : Nat → List XInstr → XState → Option XState
  | _, [], s => some s
  | 0, _ :: _, _ => none
  | fuel + 1, i :: rest, s =>
    match xdecode i s with
    | .step s' => exec_x64 fuel rest s'
    | .jump l =>
      match drop_to_label_x l rest with
      | some r => exec_x64 fuel r s
      | none => none
    | .fault => none

/-- Number-literal token. -/
def tkNum (n : Int) : Token := { type := .TOK_NUM, num := n }

/-- Payload-free token. -/
def tk (t : TokenType) : Token := { type := t }

/-- Identifier token. -/
def tkId (s : String) : Token := { type := .TOK_IDENT, str := s }

/-- Numbers of the control-flow label definitions `L<n>:` in an emitted
AArch64 listing. -/
def labelDefs (l : List AInstr) : List Nat :=
  l.filterMap (fun i => match i with | .labelDef n => some n | _ => none)

/-- Decidable check that every assignment node in a tree has a variable
reference or an array access as its left child (the l-value invariant
asserted by the specification).  The fuel bounds the tree depth, making
the function kernel-computable; with fuel exceeding the depth it decides
the intended property (fuel 0 is vacuously true). -/
def assign_targets_ok : Nat → AST → Bool
  | 0, _ => true
  | fuel + 1, a =>
    match a with
    | .num _ => true
    | .strLit _ => true
    | .var _ => true
    | .binop _ l r => assign_targets_ok fuel l && assign_targets_ok fuel r
    | .unop _ o => assign_targets_ok fuel o
    | .assign l r _ =>
      (match l with
       | .var _ => true
       | .array_access _ _ => true
       | _ => false) && assign_targets_ok fuel l && assign_targets_ok fuel r
    | .call _ args => args.all (fun x => assign_targets_ok fuel x)
    | .if_stmt c t e =>
      assign_targets_ok fuel c && assign_targets_ok fuel t &&
        (match e with | some x => assign_targets_ok fuel x | none => true)
    | .while_stmt c b => assign_targets_ok fuel c && assign_targets_ok fuel b
    | .for_stmt i c u b =>
      (match i with | some x => assign_targets_ok fuel x | none => true) &&
      (match c with | some x => assign_targets_ok fuel x | none => true) &&
      (match u with | some x => assign_targets_ok fuel x | none => true) &&
      assign_targets_ok fuel b
    | .ret v => (match v with | some x => assign_targets_ok fuel x | none => true)
    | .block ss => ss.all (fun x => assign_targets_ok fuel x)
    | .func _ _ b _ => assign_targets_ok fuel b
    | .vardecl _ i _ _ => (match i with | some x => assign_targets_ok fuel x | none => true)
    | .program gs fs =>
      gs.all (fun x => assign_targets_ok fuel x) && fs.all (fun x => assign_targets_ok fuel x)
    | .array_access _ i => assign_targets_ok fuel i
    | .addr _ => true

/-- Generator state holding one local array `a` of 5 elements at frame
offset 16, as produced by generating the declaration `int a[5];` at the
top of a parameterless function body. -/
def array_sym_state : GenSt :=
  { symbols := [{ name := "a", offset := 16, is_global := false, is_param := false,
                  param_index := 0, is_array := true, array_size := 5 }],
    stack_offset := 16, label_count := 0, string_literals := [], is_linux := false }

/-- Machine state with frame pointer 1000, stack pointer 800, and the
array element a[0] (frame offset 16, so address 984) holding 5. -/
def mach5 : AState :=
  { x0 := 0, x1 := 0, x2 := 0, sp := 800, fp := 1000, cmpL := 0, cmpR := 0,
    mem := fun a => if a = 984 then 5 else 0 }

/-- Machine state with everything zeroed, frame pointer 1000 and stack
pointer 800. -/
def mach0 : AState :=
  { x0 := 0, x1 := 0, x2 := 0, sp := 800, fp := 1000, cmpL := 0, cmpR := 0,
    mem := fun _ => 0 }

/-- Zeroed x86-64 machine state with an empty stack. -/
def xmach0 : XState :=
  { rax := 0, rcx := 0, rdx := 0, rdi := 0, rsi := 0, zf := false, stack := [] }

/-- The AArch64 code emitted for the compound assignment a[0] += 1 in
`array_sym_state`: push the right-hand side, evaluate the index, compute
the element-0 address, and store the popped right-hand side.  No load of
the old element and no add are emitted. -/
def c1_code : List AInstr :=
  [.movW0 1, .pushX0, .movW0 0, .pushX0, .subX1fp 16, .popX0, .popX2,
   .strW2idx, .movW0W2]

/-- C1.  The claim fails on the code: in both generators the
`AST_ASSIGN` case reads the compound-op marker only in the variable
branch; the array-access branch (src/minicc.c lines 1431-1448 and
1838-1854) never reads `node->assign.op`, so `a[i] += e` and `a[i] -= e`
compile exactly like the plain store `a[i] = e`.  First two conjuncts:
for every state and every index and right-hand side, the emission for
marker 43 (`+=`) equals the emission for marker 0 (`=`), on both
back-ends.  Remaining conjuncts: executing the AArch64 code of
`a[0] += 1` from a state where a[0] holds 5 stores 1 (the right-hand
side), not 5 + 1 as the claim requires, and also leaves 1 in the
accumulator. -/
theorem C1_compound_array_assign_ignored :
    (∀ fuel st name idx rhs,
       gen_expr_arm64 (fuel + 1) st (.assign (.array_access name idx) rhs 43) =
       gen_expr_arm64 (fuel + 1) st (.assign (.array_access name idx) rhs 0)) ∧
    (∀ fuel st name idx rhs,
       gen_expr_x64 (fuel + 1) st (.assign (.array_access name idx) rhs 43) =
       gen_expr_x64 (fuel + 1) st (.assign (.array_access name idx) rhs 0)) ∧
    gen_expr_arm64 9 array_sym_state (.assign (.array_access "a" (.num 0)) (.num 1) 43) =
      .ok (array_sym_state, c1_code) ∧
    (exec_arm 32 c1_code mach5).map (fun s => s.mem 984) = some 1 ∧
    (exec_arm 32 c1_code mach5).map AState.x0 = some 1 ∧
    (1 : Int) ≠ 5 + 1 := by
  refine ⟨fun fuel st name idx rhs => rfl, fun fuel st name idx rhs => rfl, rfl, rfl, rfl, by decide⟩

/-- C2, counterexample.  For the call `f(1, 2)` with literal arguments,
both generators emit the code of argument 2 first (the argument loop of
src/minicc.c lines 1454-1457 and 1863-1866 runs from the last argument
down to the first), so the emitted evaluation order is right-to-left,
not the left-to-right order the claim states: the emitted list differs
from the left-to-right emission in which the code of argument 1 comes
first. -/
theorem C2_call_args_left_to_right_cex :
    gen_expr_arm64 9 (init_state false) (.call "f" [.num 1, .num 2]) =
      .ok (init_state false,
        [.movW0 2, .pushX0, .movW0 1, .pushX0, .popX 0, .popX 1, .blCall "f"]) ∧
    gen_expr_x64 9 (init_state false) (.call "f" [.num 1, .num 2]) =
      .ok (init_state false,
        [.movlImm 2, .pushRax, .movlImm 1, .pushRax, .popArg 0, .popArg 1,
         .pushRbx, .movRspRbx, .andRsp16, .xorEax, .callq "_f", .movRbxRsp, .popRbx]) ∧
    ([AInstr.movW0 2, .pushX0, .movW0 1, .pushX0, .popX 0, .popX 1, .blCall "f"] ≠
     [AInstr.movW0 1, .pushX0, .movW0 2, .pushX0, .popX 0, .popX 1, .blCall "f"]) := by
  refine ⟨rfl, rfl, fun hcontra => ?_⟩
  have h2 : (2 : Int) = 1 := by
    have := List.head_eq_of_cons_eq hcontra
    exact AInstr.movW0.inj this
  exact absurd h2 (by decide)

/-- C4.  Operator precedence and associativity of the expression parser:
for all integer literals a, b, c, the token stream of a + b * c parses
as a + (b * c); a = b = c parses right-associatively as a = (b = c);
additive and multiplicative chains associate to the left. -/
theorem C4_precedence_and_associativity (a b c : Int) :
    parse_expr 32 [tkNum a, tk .TOK_PLUS, tkNum b, tk .TOK_STAR, tkNum c, tk .TOK_EOF] =
      .ok (.binop .TOK_PLUS (.num a) (.binop .TOK_STAR (.num b) (.num c)), [tk .TOK_EOF]) ∧
    parse_expr 32 [tkNum a, tk .TOK_ASSIGN, tkNum b, tk .TOK_ASSIGN, tkNum c, tk .TOK_EOF] =
      .ok (.assign (.num a) (.assign (.num b) (.num c) 0) 0, [tk .TOK_EOF]) ∧
    parse_expr 32 [tkNum a, tk .TOK_PLUS, tkNum b, tk .TOK_MINUS, tkNum c, tk .TOK_EOF] =
      .ok (.binop .TOK_MINUS (.binop .TOK_PLUS (.num a) (.num b)) (.num c), [tk .TOK_EOF]) ∧
    parse_expr 32 [tkNum a, tk .TOK_STAR, tkNum b, tk .TOK_SLASH, tkNum c, tk .TOK_EOF] =
      .ok (.binop .TOK_SLASH (.binop .TOK_STAR (.num a) (.num b)) (.num c), [tk .TOK_EOF]) :=
  ⟨rfl, rfl, rfl, rfl⟩

/-- Witness for C4 at the literals 1, 2, 3. -/
theorem C4_precedence_and_associativity_witness :
    parse_expr 32 [tkNum 1, tk .TOK_PLUS, tkNum 2, tk .TOK_STAR, tkNum 3, tk .TOK_EOF] =
      .ok (.binop .TOK_PLUS (.num 1) (.binop .TOK_STAR (.num 2) (.num 3)), [tk .TOK_EOF]) ∧
    parse_expr 32 [tkNum 1, tk .TOK_ASSIGN, tkNum 2, tk .TOK_ASSIGN, tkNum 3, tk .TOK_EOF] =
      .ok (.assign (.num 1) (.assign (.num 2) (.num 3) 0) 0, [tk .TOK_EOF]) ∧
    parse_expr 32 [tkNum 1, tk .TOK_PLUS, tkNum 2, tk .TOK_MINUS, tkNum 3, tk .TOK_EOF] =
      .ok (.binop .TOK_MINUS (.binop .TOK_PLUS (.num 1) (.num 2)) (.num 3), [tk .TOK_EOF]) ∧
    parse_expr 32 [tkNum 1, tk .TOK_STAR, tkNum 2, tk .TOK_SLASH, tkNum 3, tk .TOK_EOF] =
      .ok (.binop .TOK_SLASH (.binop .TOK_STAR (.num 1) (.num 2)) (.num 3), [tk .TOK_EOF]) :=
  C4_precedence_and_associativity 1 2 3

/-- C5.  The claim fails on the code: reads, address-of, array reads and
variable-assignment targets of an undefined name all reach the fatal
`error` diagnostic, but an assignment whose left side is an array access
of an undefined name reaches the unchecked `find_symbol` in the
array-access assignment branch (src/minicc.c lines 1436-1437, and
1843-1844 in the x86-64 generator) and dereferences a null `Symbol *`
instead of diagnosing. -/
theorem C5_undefined_reference_paths :
    gen_expr_arm64 9 (init_state false) (.var "x") =
      .error (.diag "Undefined variable: x") ∧
    gen_expr_arm64 9 (init_state false) (.addr "x") =
      .error (.diag "Undefined variable: x") ∧
    gen_expr_arm64 9 (init_state false) (.array_access "x" (.num 0)) =
      .error (.diag "Undefined variable: x") ∧
    gen_expr_arm64 9 (init_state false) (.assign (.var "x") (.num 1) 0) =
      .error (.diag "Undefined variable: x") ∧
    gen_expr_arm64 9 (init_state false) (.assign (.array_access "x" (.num 0)) (.num 1) 0) =
      .error .nullDeref ∧
    gen_expr_x64 9 (init_state false) (.assign (.array_access "x" (.num 0)) (.num 1) 0) =
      .error .nullDeref :=
  ⟨rfl, rfl, rfl, rfl, rfl, rfl⟩

/-- Generator state after emitting the declaration `int a[100];` at the
top of a parameterless function body: the symbol offset is
8 + 99 * 4 = 404. -/
def c6_state : GenSt :=
  { symbols := [{ name := "a", offset := 404, is_global := false, is_param := false,
                  param_index := 0, is_array := true, array_size := 100 }],
    stack_offset := 404, label_count := 0, string_literals := [], is_linux := false }

/-- Parameterless function whose one local, `int a[100];`, needs an
offset past the fixed 256-byte frame reservation. -/
def c6_func : AST :=
  .func "f" [] (.block [.vardecl "a" none true 100, .ret (some (.num 0))]) false

/-- C6, counterexample.  Generating `int a[100];` succeeds and records
offset 404, which is not below 256, and generating the whole enclosing
function also succeeds: no diagnostic rejects a program whose locals
need 256 bytes or more, contrary to the claim. -/
theorem C6_frame_overflow_accepted_cex :
    gen_stmt_arm64 9 (init_state false) (.vardecl "a" none true 100) =
      .ok (c6_state, []) ∧
    (find_symbol c6_state "a").map Symbol.offset = some 404 ∧
    ¬((404 : Int) < 256) ∧
    (∃ stEnd code, gen_func_arm64 9 (init_state false) c6_func = .ok (stEnd, code)) := by
  exact ⟨rfl, rfl, by decide, ⟨_, _, rfl⟩⟩

/-- Token stream of the program `int main ( ) { 1 = 2 ; }`. -/
def c7_tokens : List Token :=
  [tk .TOK_INT, tkId "main", tk .TOK_LPAREN, tk .TOK_RPAREN, tk .TOK_LBRACE,
   tkNum 1, tk .TOK_ASSIGN, tkNum 2, tk .TOK_SEMI, tk .TOK_RBRACE, tk .TOK_EOF]

/-- AST produced for `int main ( ) { 1 = 2 ; }`: the statement is an
assignment whose left child is the number literal 1. -/
def c7_program : AST :=
  .program [] [.func "main" [] (.block [.assign (.num 1) (.num 2) 0]) false]

/-- C7, counterexample.  The parser accepts the program
`int main ( ) { 1 = 2 ; }` without any diagnostic, and the resulting
tree contains an assignment whose left child is a number literal —
neither a variable reference nor an array access — refuting the claimed
invariant. -/
theorem C7_lvalue_invariant_cex :
    do_parse_program 64 c7_tokens = .ok (c7_program, [tk .TOK_EOF]) ∧
    assign_targets_ok 64 c7_program = false :=
  ⟨rfl, rfl⟩

/-- C7, amended.  The parser performs no l-value validation: the left
side of an assignment is whatever `parse_logical_or` produced, so for
all integer literals a and b the expression a = b parses successfully
into an assignment node whose left child is the number literal a. -/
theorem C7_any_expression_as_target (a b : Int) :
    parse_expr 32 [tkNum a, tk .TOK_ASSIGN, tkNum b, tk .TOK_EOF] =
      .ok (.assign (.num a) (.num b) 0, [tk .TOK_EOF]) :=
  rfl

/-- Witness for the amended C7 at the literals 1, 2. -/
theorem C7_any_expression_as_target_witness :
    parse_expr 32 [tkNum 1, tk .TOK_ASSIGN, tkNum 2, tk .TOK_EOF] =
      .ok (.assign (.num 1) (.num 2) 0, [tk .TOK_EOF]) :=
  C7_any_expression_as_target 1 2

/-- Bridging lemma: the C expression `num & 0xFFFF` on a nonnegative
value is the euclidean remainder by 2 to the 16. -/
theorem int_land_65535_eq_emod (v : Int) (h : 0 ≤ v) : Int.land v 65535 = v % 65536 := by
  obtain ⟨n, rfl⟩ := Int.eq_ofNat_of_zero_le h
  show ((n &&& 65535 : Nat) : Int) = (n : Int) % 65536
  have h2 : n &&& 65535 = n % 65536 := by
    have := Nat.and_pow_two_sub_one_eq_mod n 16
    norm_num at this
    exact this
  rw [h2]
  omega

/-- Bridging lemma: the C expression `num >> 16` on a nonnegative value
is the euclidean quotient by 2 to the 16. -/
theorem int_shiftRight16_eq_ediv (v : Int) (h : 0 ≤ v) : Int.shiftRight v 16 = v / 65536 := by
  obtain ⟨n, rfl⟩ := Int.eq_ofNat_of_zero_le h
  rw [← Int.shiftRight_eq, Int.shiftRight_eq_div_pow]
  norm_num

/-- Value held in x0 after the `mov`/`movk` pair for a 32-bit value:
the low half materialised by `mov x0` combined with the `movk` of the
high half reconstructs the value. -/
theorem movk_pair_value (v : Int) (h0 : 0 ≤ v) (h1 : v < 4294967296) :
    Int.land v 65535 - Int.land v 65535 / 65536 % 65536 * 65536 +
      Int.land (Int.shiftRight v 16) 65535 * 65536 = v := by
  rw [int_land_65535_eq_emod v h0, int_shiftRight16_eq_ediv v h0,
      int_land_65535_eq_emod (v / 65536) (by omega)]
  omega

/-- C8.  For every number-literal value v in 0..2^32-1 the AArch64
generator emits exactly one `mov w0, #v` when v is at most 65535, and
otherwise the `mov x0` of the low 16 bits followed by the `movk` of the
next 16 bits shifted left 16; executing the emitted code from any
machine state materialises exactly v in the accumulator. -/
theorem C8_num_materialization (v : Int) (h0 : 0 ≤ v) (h1 : v < 4294967296) :
    ∃ code, gen_expr_arm64 1 (init_state false) (.num v) = .ok (init_state false, code) ∧
      (v < 65536 → code = [.movW0 v]) ∧
      (65536 ≤ v → code = [.movX0 (Int.land v 65535),
                           .movkX0 (Int.land (Int.shiftRight v 16) 65535)]) ∧
      ∀ s : AState, (exec_arm 4 code s).map AState.x0 = some v := by
  by_cases hv : v < 65536
  · refine ⟨[.movW0 v], ?_, fun _ => rfl, fun h => absurd h (by omega), fun s => ?_⟩
    · simp [gen_expr_arm64, h0, hv]
    · simp [exec_arm, decode, astep]
  · have hgt : v > 65535 := by omega
    refine ⟨[.movX0 (Int.land v 65535),
             .movkX0 (Int.land (Int.shiftRight v 16) 65535)], ?_,
            fun h => absurd h hv, fun _ => rfl, fun s => ?_⟩
    · simp [gen_expr_arm64, hv, hgt]
    · simp only [exec_arm, decode, astep, Option.map_some]
      rw [movk_pair_value v h0 h1]
      simp

/-- Reduction of an Except bind on a success value. -/
theorem except_bind_ok {α β ε : Type} (x : α) (f : α → Except ε β) :
    (Except.ok x >>= f : Except ε β) = f x := rfl

/-- Fuel monotonicity of the AArch64 executor: a successful run stays
successful with more fuel. -/
theorem exec_arm_mono : ∀ (fuel : Nat) (l : List AInstr) (s r : AState),
    exec_arm fuel l s = some r → exec_arm (fuel + 1) l s = some r := by
  intro fuel
  induction fuel with
  | zero =>
    intro l s r h
    cases l with
    | nil => exact h
    | cons i rest => simp [exec_arm] at h
  | succ n ih =>
    intro l s r h
    cases l with
    | nil => exact h
    | cons i rest =>
      simp only [exec_arm] at h ⊢
      cases hd : decode i s with
      | step s' =>
        simp only [hd] at h ⊢
        exact ih _ _ _ h
      | jump l' =>
        simp only [hd] at h ⊢
        cases hdl : drop_to_label l' rest with
        | some rr =>
          simp only [hdl] at h ⊢
          exact ih _ _ _ h
        | none => simp [hdl] at h
      | fault => simp [hd] at h

/-- Specification of the number-literal emission of the AArch64
generator as a composable block: the emitted code is a function of the
value alone, and executing it before any continuation sets the
accumulator to the value (for values in the 32-bit range). -/
theorem gen_num_arm_block (v : Int) (h0 : 0 ≤ v) (h1 : v < 4294967296) :
    ∃ code, (∀ fuel st, gen_expr_arm64 (fuel + 1) st (.num v) = .ok (st, code)) ∧
      (∀ (fuel : Nat) (rest : List AInstr) (s r : AState),
        exec_arm fuel rest { s with x0 := v } = some r →
        exec_arm (fuel + 2) (code ++ rest) s = some r) := by
  by_cases hv : v < 65536
  · refine ⟨[.movW0 v], fun fuel st => by simp [gen_expr_arm64, h0, hv], ?_⟩
    intro fuel rest s r h
    simp only [List.cons_append, List.nil_append, exec_arm, decode, astep]
    exact exec_arm_mono _ _ _ _ h
  · have hgt : v > 65535 := by omega
    refine ⟨[.movX0 (Int.land v 65535), .movkX0 (Int.land (Int.shiftRight v 16) 65535)],
            fun fuel st => by simp [gen_expr_arm64, hv, hgt], ?_⟩
    intro fuel rest s r h
    simp only [List.cons_append, List.nil_append, exec_arm, decode, astep]
    rw [movk_pair_value v h0 h1]
    exact h

/-- Instruction tail emitted after both operands of an AArch64 `&&`:
move the right operand aside, pop the left, skip the right if the left
is zero, then normalise the accumulator to 0/1. -/
def arm64_and_tail (lbl : Nat) : List AInstr :=
  [.movX1X0, .popX0, .cbzW0 lbl, .movW0W1, .labelDef lbl, .cmpW0zero, .csetNe]

/-- Instruction tail emitted after both operands of an AArch64 `||`. -/
def arm64_or_tail (lbl : Nat) : List AInstr :=
  [.movX1X0, .popX0, .cbnzW0 lbl, .movW0W1, .labelDef lbl, .cmpW0zero, .csetNe]

/-- Instruction tail emitted after both operands of an x86-64 `&&`. -/
def x64_and_tail (lbl : Nat) : List XInstr :=
  [.movEaxEcx, .popRax, .testlEax, .je lbl, .movEcxEax, .labelDef lbl,
   .testlEax, .setneAl, .movzblAlEax]

/-- Instruction tail emitted after both operands of an x86-64 `||`. -/
def x64_or_tail (lbl : Nat) : List XInstr :=
  [.movEaxEcx, .popRax, .testlEax, .jne lbl, .movEcxEax, .labelDef lbl,
   .testlEax, .setneAl, .movzblAlEax]

/-- Initial compiler state after allocating one control-flow label. -/
def stL1 : GenSt :=
  { symbols := [], stack_offset := 0, label_count := 1,
    string_literals := [], is_linux := false }

/-- Lifting of a composable code block through `Option.map`: if a block
lemma relates the run of `code ++ rest` to the run of `rest` from an
updated state, the same holds for any projection of the final state. -/
theorem exec_block_map_arm (upd : AState → AState) (code : List AInstr) (k : Nat)
    (hex : ∀ fuel rest s r, exec_arm fuel rest (upd s) = some r →
             exec_arm (fuel + k) (code ++ rest) s = some r)
    (fuel : Nat) (rest : List AInstr) (s : AState) {α : Type} (f : AState → α) (y : α)
    (h : (exec_arm fuel rest (upd s)).map f = some y) :
    (exec_arm (fuel + k) (code ++ rest) s).map f = some y := by
  obtain ⟨r, hr, hf⟩ := Option.map_eq_some'.mp h
  rw [hex fuel rest s r hr]
  simp [hf]

/-- Emission equation of the AArch64 generator for `&&`: operand code of
the left, a push, operand code of the right, then the fixed tail with a
fresh label. -/
theorem gen_and_arm_eq (fuel : Nat) (st st1 st2 : GenSt) (l r : AST) (cl cr : List AInstr)
    (hl : gen_expr_arm64 fuel st l = .ok (st1, cl))
    (hr : gen_expr_arm64 fuel st1 r = .ok (st2, cr)) :
    gen_expr_arm64 (fuel + 1) st (.binop .TOK_AND l r) =
      .ok ({ st2 with label_count := st2.label_count + 1 },
           cl ++ ([.pushX0] ++ (cr ++ arm64_and_tail st2.label_count))) := by
  have hunf : gen_expr_arm64 (fuel + 1) st (.binop .TOK_AND l r) =
      (do
        let (st1, cl) ← gen_expr_arm64 fuel st l
        let (st2, cr) ← gen_expr_arm64 fuel st1 r
        let pre := cl ++ [AInstr.pushX0] ++ cr ++ [AInstr.movX1X0, AInstr.popX0]
        let (st3, opc) := arm64_binop_code .TOK_AND st2
        Except.ok (st3, pre ++ opc)) := rfl
  rw [hunf]
  simp only [hl, except_bind_ok]
  simp only [hr, except_bind_ok]
  simp [arm64_binop_code, arm64_and_tail, List.append_assoc]

/-- Emission equation of the AArch64 generator for `||`. -/
theorem gen_or_arm_eq (fuel : Nat) (st st1 st2 : GenSt) (l r : AST) (cl cr : List AInstr)
    (hl : gen_expr_arm64 fuel st l = .ok (st1, cl))
    (hr : gen_expr_arm64 fuel st1 r = .ok (st2, cr)) :
    gen_expr_arm64 (fuel + 1) st (.binop .TOK_OR l r) =
      .ok ({ st2 with label_count := st2.label_count + 1 },
           cl ++ ([.pushX0] ++ (cr ++ arm64_or_tail st2.label_count))) := by
  have hunf : gen_expr_arm64 (fuel + 1) st (.binop .TOK_OR l r) =
      (do
        let (st1, cl) ← gen_expr_arm64 fuel st l
        let (st2, cr) ← gen_expr_arm64 fuel st1 r
        let pre := cl ++ [AInstr.pushX0] ++ cr ++ [AInstr.movX1X0, AInstr.popX0]
        let (st3, opc) := arm64_binop_code .TOK_OR st2
        Except.ok (st3, pre ++ opc)) := rfl
  rw [hunf]
  simp only [hl, except_bind_ok]
  simp only [hr, except_bind_ok]
  simp [arm64_binop_code, arm64_or_tail, List.append_assoc]

/-- Execution of the `&&` tail from the state reached after both operand
values were materialised (right operand in the accumulator, left pushed
at the stack slot): the result is the 0/1 conjunction where any nonzero
operand counts as true. -/
theorem arm_and_tail_exec (a b : Int) (s : AState) (hx0 : s.x0 = b) (hsp : s.sp = 784)
    (hmem : s.mem 784 = a) :
    (exec_arm 27 (arm64_and_tail 0) s).map AState.x0 =
      some (if a ≠ 0 ∧ b ≠ 0 then 1 else 0) := by
  by_cases ha : a = 0 <;> by_cases hb : b = 0 <;>
    simp [arm64_and_tail, exec_arm, decode, astep, drop_to_label, hx0, hsp, hmem, ha, hb]

/-- Execution of the `||` tail: the result is the 0/1 disjunction. -/
theorem arm_or_tail_exec (a b : Int) (s : AState) (hx0 : s.x0 = b) (hsp : s.sp = 784)
    (hmem : s.mem 784 = a) :
    (exec_arm 27 (arm64_or_tail 0) s).map AState.x0 =
      some (if a ≠ 0 ∨ b ≠ 0 then 1 else 0) := by
  by_cases ha : a = 0 <;> by_cases hb : b = 0 <;>
    simp [arm64_or_tail, exec_arm, decode, astep, drop_to_label, hx0, hsp, hmem, ha, hb]

/-- C3.  Short-circuit Booleans: for all operand values a and b (as
32-bit-range number literals), both generators emit the code of both
operands before the forward branch (the emitted list is operand-a code,
a push, operand-b code, then the branch-and-normalise tail), and
executing the emitted code yields exactly 0 or 1: the Boolean
conjunction/disjunction in which any nonzero operand counts as true,
normalised by the compare-and-set after the join label. -/
theorem C3_short_circuit_booleans (a b : Int) (ha0 : 0 ≤ a) (ha1 : a < 4294967296)
    (hb0 : 0 ≤ b) (hb1 : b < 4294967296) :
    ∃ cA cB,
      gen_expr_arm64 9 (init_state false) (.num a) = .ok (init_state false, cA) ∧
      gen_expr_arm64 9 (init_state false) (.num b) = .ok (init_state false, cB) ∧
      gen_expr_arm64 9 (init_state false) (.binop .TOK_AND (.num a) (.num b)) =
        .ok (stL1, cA ++ ([.pushX0] ++ (cB ++ arm64_and_tail 0))) ∧
      gen_expr_arm64 9 (init_state false) (.binop .TOK_OR (.num a) (.num b)) =
        .ok (stL1, cA ++ ([.pushX0] ++ (cB ++ arm64_or_tail 0))) ∧
      (exec_arm 32 (cA ++ ([.pushX0] ++ (cB ++ arm64_and_tail 0))) mach0).map AState.x0 =
        some (if a ≠ 0 ∧ b ≠ 0 then 1 else 0) ∧
      (exec_arm 32 (cA ++ ([.pushX0] ++ (cB ++ arm64_or_tail 0))) mach0).map AState.x0 =
        some (if a ≠ 0 ∨ b ≠ 0 then 1 else 0) ∧
      gen_expr_x64 9 (init_state false) (.binop .TOK_AND (.num a) (.num b)) =
        .ok (stL1, [XInstr.movlImm a] ++ ([.pushRax] ++ ([XInstr.movlImm b] ++ x64_and_tail 0))) ∧
      gen_expr_x64 9 (init_state false) (.binop .TOK_OR (.num a) (.num b)) =
        .ok (stL1, [XInstr.movlImm a] ++ ([.pushRax] ++ ([XInstr.movlImm b] ++ x64_or_tail 0))) ∧
      (exec_x64 32 ([XInstr.movlImm a] ++ ([.pushRax] ++ ([XInstr.movlImm b] ++ x64_and_tail 0)))
          xmach0).map XState.rax = some (if a ≠ 0 ∧ b ≠ 0 then 1 else 0) ∧
      (exec_x64 32 ([XInstr.movlImm a] ++ ([.pushRax] ++ ([XInstr.movlImm b] ++ x64_or_tail 0)))
          xmach0).map XState.rax = some (if a ≠ 0 ∨ b ≠ 0 then 1 else 0) := by
  obtain ⟨cA, hgA, hexA⟩ := gen_num_arm_block a ha0 ha1
  obtain ⟨cB, hgB, hexB⟩ := gen_num_arm_block b hb0 hb1
  have h8A : gen_expr_arm64 8 (init_state false) (.num a) = .ok (init_state false, cA) := hgA 7 _
  have h8B : gen_expr_arm64 8 (init_state false) (.num b) = .ok (init_state false, cB) := hgB 7 _
  refine ⟨cA, cB, hgA 8 _, hgB 8 _,
          gen_and_arm_eq 8 _ _ _ _ _ _ _ h8A h8B,
          gen_or_arm_eq 8 _ _ _ _ _ _ _ h8A h8B, ?_, ?_, rfl, rfl, ?_, ?_⟩
  · refine exec_block_map_arm (fun s => { s with x0 := a }) cA 2 hexA 30 _ mach0 AState.x0 _ ?_
    simp only [List.cons_append, List.nil_append, exec_arm, decode, astep]
    refine exec_block_map_arm (fun s => { s with x0 := b }) cB 2 hexB 27 _ _ AState.x0 _ ?_
    exact arm_and_tail_exec a b _ rfl (by simp [mach0]) (by simp [mach0, memSet])
  · refine exec_block_map_arm (fun s => { s with x0 := a }) cA 2 hexA 30 _ mach0 AState.x0 _ ?_
    simp only [List.cons_append, List.nil_append, exec_arm, decode, astep]
    refine exec_block_map_arm (fun s => { s with x0 := b }) cB 2 hexB 27 _ _ AState.x0 _ ?_
    exact arm_or_tail_exec a b _ rfl (by simp [mach0]) (by simp [mach0, memSet])
  · by_cases ha : a = 0 <;> by_cases hb : b = 0 <;>
      simp [x64_and_tail, exec_x64, xdecode, xstep, drop_to_label_x, xmach0, ha, hb] <;>
      omega
  · by_cases ha : a = 0 <;> by_cases hb : b = 0 <;>
      simp [x64_or_tail, exec_x64, xdecode, xstep, drop_to_label_x, xmach0, ha, hb] <;>
      omega

/-- Witness for C3 at the operand values 3 and 0. -/
theorem C3_short_circuit_booleans_witness :
    (0 : Int) ≤ 3 ∧ (3 : Int) < 4294967296 ∧ (0 : Int) ≤ 0 ∧ (0 : Int) < 4294967296 ∧
    (∃ cA cB,
      gen_expr_arm64 9 (init_state false) (.num 3) = .ok (init_state false, cA) ∧
      gen_expr_arm64 9 (init_state false) (.num 0) = .ok (init_state false, cB) ∧
      gen_expr_arm64 9 (init_state false) (.binop .TOK_AND (.num 3) (.num 0)) =
        .ok (stL1, cA ++ ([.pushX0] ++ (cB ++ arm64_and_tail 0))) ∧
      gen_expr_arm64 9 (init_state false) (.binop .TOK_OR (.num 3) (.num 0)) =
        .ok (stL1, cA ++ ([.pushX0] ++ (cB ++ arm64_or_tail 0))) ∧
      (exec_arm 32 (cA ++ ([.pushX0] ++ (cB ++ arm64_and_tail 0))) mach0).map AState.x0 =
        some (if (3 : Int) ≠ 0 ∧ (0 : Int) ≠ 0 then 1 else 0) ∧
      (exec_arm 32 (cA ++ ([.pushX0] ++ (cB ++ arm64_or_tail 0))) mach0).map AState.x0 =
        some (if (3 : Int) ≠ 0 ∨ (0 : Int) ≠ 0 then 1 else 0) ∧
      gen_expr_x64 9 (init_state false) (.binop .TOK_AND (.num 3) (.num 0)) =
        .ok (stL1, [XInstr.movlImm 3] ++ ([.pushRax] ++ ([XInstr.movlImm 0] ++ x64_and_tail 0))) ∧
      gen_expr_x64 9 (init_state false) (.binop .TOK_OR (.num 3) (.num 0)) =
        .ok (stL1, [XInstr.movlImm 3] ++ ([.pushRax] ++ ([XInstr.movlImm 0] ++ x64_or_tail 0))) ∧
      (exec_x64 32 ([XInstr.movlImm 3] ++ ([.pushRax] ++ ([XInstr.movlImm 0] ++ x64_and_tail 0)))
          xmach0).map XState.rax = some (if (3 : Int) ≠ 0 ∧ (0 : Int) ≠ 0 then 1 else 0) ∧
      (exec_x64 32 ([XInstr.movlImm 3] ++ ([.pushRax] ++ ([XInstr.movlImm 0] ++ x64_or_tail 0)))
          xmach0).map XState.rax = some (if (3 : Int) ≠ 0 ∨ (0 : Int) ≠ 0 then 1 else 0)) :=
  ⟨by decide, by decide, by decide, by decide,
   C3_short_circuit_booleans 3 0 (by decide) (by decide) (by decide) (by decide)⟩

/-- C2, amended.  For the call `f(a, b, c)` with literal arguments both
generators evaluate the arguments right-to-left (the code of c comes
first, then b, then a, each followed by a push) and then pop them into
the argument registers in order, so that register i holds argument i:
executing the popped sequence puts a, b, c in the first three argument
registers of each target. -/
theorem C2_args_reverse_order (a b c : Int) (ha0 : 0 ≤ a) (ha1 : a < 65536)
    (hb0 : 0 ≤ b) (hb1 : b < 65536) (hc0 : 0 ≤ c) (hc1 : c < 65536) :
    gen_expr_arm64 9 (init_state false) (.call "f" [.num a, .num b, .num c]) =
      .ok (init_state false,
        [.movW0 c, .pushX0, .movW0 b, .pushX0, .movW0 a, .pushX0,
         .popX 0, .popX 1, .popX 2, .blCall "f"]) ∧
    gen_expr_x64 9 (init_state false) (.call "f" [.num a, .num b, .num c]) =
      .ok (init_state false,
        [.movlImm c, .pushRax, .movlImm b, .pushRax, .movlImm a, .pushRax,
         .popArg 0, .popArg 1, .popArg 2, .pushRbx, .movRspRbx, .andRsp16, .xorEax,
         .callq "_f", .movRbxRsp, .popRbx]) ∧
    (exec_arm 32 [.movW0 c, .pushX0, .movW0 b, .pushX0, .movW0 a, .pushX0,
                  .popX 0, .popX 1, .popX 2] mach0).map (fun s => (s.x0, s.x1, s.x2)) =
      some (a, b, c) ∧
    (exec_x64 32 [.movlImm c, .pushRax, .movlImm b, .pushRax, .movlImm a, .pushRax,
                  .popArg 0, .popArg 1, .popArg 2] xmach0).map
        (fun s => (s.rdi, s.rsi, s.rdx)) = some (a, b, c) := by
  have hA : ∀ st, gen_expr_arm64 8 st (.num a) = .ok (st, [.movW0 a]) := fun st => by
    simp [gen_expr_arm64, ha0, ha1]
  have hB : ∀ st, gen_expr_arm64 8 st (.num b) = .ok (st, [.movW0 b]) := fun st => by
    simp [gen_expr_arm64, hb0, hb1]
  have hC : ∀ st, gen_expr_arm64 8 st (.num c) = .ok (st, [.movW0 c]) := fun st => by
    simp [gen_expr_arm64, hc0, hc1]
  have hunf : gen_expr_arm64 9 (init_state false) (.call "f" [.num a, .num b, .num c]) =
      (do
        let (st1, cArgs) ← ([AST.num a, AST.num b, AST.num c].foldr
          (fun x acc => do
            let (stAcc, cAcc) ← acc
            let (stA, cA) ← gen_expr_arm64 8 stAcc x
            Except.ok (stA, cAcc ++ cA ++ [AInstr.pushX0]))
          (Except.ok (init_state false, ([] : List AInstr))))
        Except.ok (st1, cArgs ++ (List.range (min 3 8)).map (fun i => AInstr.popX i) ++
          [AInstr.blCall "f"])) := rfl
  refine ⟨?_, rfl, ?_, ?_⟩
  · rw [hunf]
    simp only [List.foldr_cons, List.foldr_nil, except_bind_ok, hA, hB, hC]
    simp [List.range, List.range.loop]
  · simp [exec_arm, decode, astep, memSet, mach0]
  · simp [exec_x64, xdecode, xstep, xmach0]

/-- Witness for the amended C2 at the argument values 1, 2, 3. -/
theorem C2_args_reverse_order_witness :
    gen_expr_arm64 9 (init_state false) (.call "f" [.num 1, .num 2, .num 3]) =
      .ok (init_state false,
        [.movW0 3, .pushX0, .movW0 2, .pushX0, .movW0 1, .pushX0,
         .popX 0, .popX 1, .popX 2, .blCall "f"]) ∧
    gen_expr_x64 9 (init_state false) (.call "f" [.num 1, .num 2, .num 3]) =
      .ok (init_state false,
        [.movlImm 3, .pushRax, .movlImm 2, .pushRax, .movlImm 1, .pushRax,
         .popArg 0, .popArg 1, .popArg 2, .pushRbx, .movRspRbx, .andRsp16, .xorEax,
         .callq "_f", .movRbxRsp, .popRbx]) ∧
    (exec_arm 32 [.movW0 3, .pushX0, .movW0 2, .pushX0, .movW0 1, .pushX0,
                  .popX 0, .popX 1, .popX 2] mach0).map (fun s => (s.x0, s.x1, s.x2)) =
      some (1, 2, 3) ∧
    (exec_x64 32 [.movlImm 3, .pushRax, .movlImm 2, .pushRax, .movlImm 1, .pushRax,
                  .popArg 0, .popArg 1, .popArg 2] xmach0).map
        (fun s => (s.rdi, s.rsi, s.rdx)) = some (1, 2, 3) :=
  C2_args_reverse_order 1 2 3 (by decide) (by decide) (by decide) (by decide)
    (by decide) (by decide)

/-- Witness for C8 at the value 70000. -/
theorem C8_num_materialization_witness :
    (0 : Int) ≤ 70000 ∧ (70000 : Int) < 4294967296 ∧
    ∃ code, gen_expr_arm64 1 (init_state false) (.num 70000) = .ok (init_state false, code) ∧
      ((70000 : Int) < 65536 → code = [.movW0 70000]) ∧
      ((65536 : Int) ≤ 70000 → code = [.movX0 (Int.land 70000 65535),
                                       .movkX0 (Int.land (Int.shiftRight 70000 16) 65535)]) ∧
      ∀ s : AState, (exec_arm 4 code s).map AState.x0 = some 70000 :=
  ⟨by decide, by decide, C8_num_materialization 70000 (by decide) (by decide)⟩

end Minicc

namespace Minicc

set_option maxHeartbeats 2000000

/-- Invariant of one expression-generation step. -/
def EInv (st st' : GenSt) (ins : List AInstr) : Prop :=
  st'.symbols = st.symbols ∧ st'.stack_offset = st.stack_offset ∧
  st'.is_linux = st.is_linux ∧
  st.label_count ≤ st'.label_count ∧
  (∀ n ∈ labelDefs ins, st.label_count ≤ n ∧ n < st'.label_count) ∧
  (labelDefs ins).Nodup

theorem labelDefs_append (c1 c2 : List AInstr) :
    labelDefs (c1 ++ c2) = labelDefs c1 ++ labelDefs c2 := by
  simp [labelDefs]

theorem EInv_refl (st : GenSt) (ins : List AInstr) (h : labelDefs ins = []) :
    EInv st st ins := by
  refine ⟨rfl, rfl, rfl, le_refl _, ?_, ?_⟩ <;> simp [h]

theorem EInv_comp {st st1 st2 : GenSt} {c1 c2 : List AInstr}
    (h1 : EInv st st1 c1) (h2 : EInv st1 st2 c2) : EInv st st2 (c1 ++ c2) := by
  obtain ⟨hs1, ho1, hl1, hk1, hb1, hn1⟩ := h1
  obtain ⟨hs2, ho2, hl2, hk2, hb2, hn2⟩ := h2
  refine ⟨hs2.trans hs1, ho2.trans ho1, hl2.trans hl1, hk1.trans hk2, ?_, ?_⟩
  · intro n hn
    rw [labelDefs_append, List.mem_append] at hn
    rcases hn with hn | hn
    · have := hb1 n hn; omega
    · have := hb2 n hn; omega
  · rw [labelDefs_append]
    refine List.Nodup.append hn1 hn2 ?_
    intro n hna hnb
    have := hb1 n hna
    have := hb2 n hnb
    omega

theorem EInv_right (st st' : GenSt) (c1 c2 : List AInstr)
    (h1 : EInv st st' c1) (h : labelDefs c2 = []) : EInv st st' (c1 ++ c2) := by
  have := EInv_comp h1 (EInv_refl st' c2 h)
  exact this

theorem EInv_left (st st' : GenSt) (c1 c2 : List AInstr)
    (h : labelDefs c1 = []) (h2 : EInv st st' c2) : EInv st st' (c1 ++ c2) :=
  EInv_comp (EInv_refl st c1 h) h2

theorem arm64_binop_code_inv (op : TokenType) (st2 : GenSt) :
    EInv st2 (arm64_binop_code op st2).1 (arm64_binop_code op st2).2 := by
  cases op <;> simp [arm64_binop_code, EInv, labelDefs]

theorem arm64_unop_code_no_labels (op : TokenType) :
    labelDefs (arm64_unop_code op) = [] := by
  cases op <;> rfl

theorem except_bind_eq_ok {α β ε : Type} {x : Except ε α} {f : α → Except ε β} {b : β}
    (h : (x >>= f) = .ok b) : ∃ a, x = .ok a ∧ f a = .ok b := by
  cases x with
  | error e =>
    have : (Except.error e >>= f : Except ε β) = .error e := rfl
    rw [this] at h
    exact absurd h (by simp)
  | ok a => exact ⟨a, rfl, h⟩

end Minicc

namespace Minicc

set_option maxHeartbeats 4000000

theorem gen_args_fold_inv (n : Nat)
    (ih : ∀ (e : AST) (st st' : GenSt) (ins : List AInstr),
        gen_expr_arm64 n st e = .ok (st', ins) → EInv st st' ins) :
    ∀ (args : List AST) (st st' : GenSt) (code : List AInstr),
      (args.foldr (fun a acc => do
          let (stAcc, cAcc) ← acc
          let (stA, cA) ← gen_expr_arm64 n stAcc a
          Except.ok (stA, cAcc ++ cA ++ [AInstr.pushX0]))
        (Except.ok (st, ([] : List AInstr)))) = .ok (st', code) →
      EInv st st' code := by
  intro args
  induction args with
  | nil =>
    intro st st' code h
    simp only [List.foldr_nil, Except.ok.injEq, Prod.mk.injEq] at h
    obtain ⟨h1, h2⟩ := h
    subst h1; subst h2
    exact EInv_refl _ _ rfl
  | cons a rest ihl =>
    intro st st' code h
    simp only [List.foldr_cons] at h
    obtain ⟨⟨stM, cM⟩, hM, h⟩ := except_bind_eq_ok h
    obtain ⟨⟨stA, cA⟩, hA, h⟩ := except_bind_eq_ok h
    simp only [Except.ok.injEq, Prod.mk.injEq] at h
    obtain ⟨h1, h2⟩ := h
    subst h1; subst h2
    have hrest := ihl st stM cM hM
    have ha := ih a stM stA cA hA
    have : EInv st stA (cM ++ cA) := EInv_comp hrest ha
    exact EInv_right _ _ _ _ this rfl

end Minicc

namespace Minicc

set_option maxHeartbeats 4000000

theorem labelDefs_map_popX (l : List Nat) :
    labelDefs (l.map (fun i => AInstr.popX i)) = [] := by
  induction l with
  | nil => rfl
  | cons a rest ihp => simpa [labelDefs] using ihp

theorem gen_expr_arm64_inv : ∀ (fuel : Nat) (e : AST) (st st' : GenSt) (ins : List AInstr),
    gen_expr_arm64 fuel st e = .ok (st', ins) → EInv st st' ins := by
  intro fuel
  induction fuel with
  | zero => intro e st st' ins h; simp [gen_expr_arm64] at h
  | succ n ih =>
    intro e st st' ins h
    cases e with
    | num m =>
      simp only [gen_expr_arm64] at h
      split at h
      · simp only [Except.ok.injEq, Prod.mk.injEq] at h
        obtain ⟨h1, h2⟩ := h
        subst h1; subst h2
        exact EInv_refl _ _ rfl
      · simp only [Except.ok.injEq, Prod.mk.injEq] at h
        obtain ⟨h1, h2⟩ := h
        subst h1; subst h2
        apply EInv_refl
        split <;> rfl
    | strLit sLit =>
      simp only [gen_expr_arm64, Except.ok.injEq, Prod.mk.injEq] at h
      obtain ⟨h1, h2⟩ := h
      subst h1; subst h2
      exact ⟨rfl, rfl, rfl, le_refl _, by simp [labelDefs], by simp [labelDefs]⟩
    | var name =>
      simp only [gen_expr_arm64] at h
      cases hf : find_symbol st name with
      | none => simp only [hf] at h; exact absurd h (by simp)
      | some sym =>
        simp only [hf] at h
        split at h
        · simp only [Except.ok.injEq, Prod.mk.injEq] at h
          obtain ⟨h1, h2⟩ := h
          subst h1; subst h2
          apply EInv_refl
          split <;> rfl
        · split at h <;>
            (simp only [Except.ok.injEq, Prod.mk.injEq] at h
             obtain ⟨h1, h2⟩ := h
             subst h1; subst h2
             exact EInv_refl _ _ rfl)
    | addr name =>
      simp only [gen_expr_arm64] at h
      cases hf : find_symbol st name with
      | none => simp only [hf] at h; exact absurd h (by simp)
      | some sym =>
        simp only [hf] at h
        split at h <;>
          (simp only [Except.ok.injEq, Prod.mk.injEq] at h
           obtain ⟨h1, h2⟩ := h
           subst h1; subst h2
           exact EInv_refl _ _ rfl)
    | array_access name idx =>
      simp only [gen_expr_arm64] at h
      cases hf : find_symbol st name with
      | none => simp only [hf] at h; exact absurd h (by simp)
      | some sym =>
        simp only [hf] at h
        obtain ⟨⟨st1, ci⟩, hci, h⟩ := except_bind_eq_ok h
        simp only [Except.ok.injEq, Prod.mk.injEq] at h
        obtain ⟨h1, h2⟩ := h
        subst h1; subst h2
        have hI := ih idx st st1 ci hci
        have hbase : labelDefs (if sym.is_global then [AInstr.adrpX1 name, AInstr.addX1 name]
            else [AInstr.subX1fp sym.offset]) = [] := by split <;> rfl
        exact EInv_right _ _ _ _ (EInv_right _ _ _ _ (EInv_right _ _ _ _ hI rfl) hbase) rfl
    | binop op l r =>
      simp only [gen_expr_arm64] at h
      obtain ⟨⟨st1, cl⟩, hcl, h⟩ := except_bind_eq_ok h
      obtain ⟨⟨st2, cr⟩, hcr, h⟩ := except_bind_eq_ok h
      cases hbp : arm64_binop_code op st2 with
      | mk st3 opc =>
        simp only [hbp, Except.ok.injEq, Prod.mk.injEq] at h
        obtain ⟨h1, h2⟩ := h
        subst h1; subst h2
        have hL := ih l st st1 cl hcl
        have hR := ih r st1 st2 cr hcr
        have hB := arm64_binop_code_inv op st2
        rw [hbp] at hB
        exact EInv_comp (EInv_right _ _ _ _ (EInv_comp (EInv_right _ _ _ _ hL rfl) hR) rfl) hB
    | unop op o =>
      simp only [gen_expr_arm64] at h
      obtain ⟨⟨st1, co⟩, hco, h⟩ := except_bind_eq_ok h
      simp only [Except.ok.injEq, Prod.mk.injEq] at h
      obtain ⟨h1, h2⟩ := h
      subst h1; subst h2
      exact EInv_right _ _ _ _ (ih o st st1 co hco) (arm64_unop_code_no_labels op)
    | assign l r op =>
      simp only [gen_expr_arm64] at h
      obtain ⟨⟨st1, cr⟩, hcr, h⟩ := except_bind_eq_ok h
      have hR := ih r st st1 cr hcr
      cases l with
      | var name =>
        cases hf : find_symbol st1 name with
        | none => simp only [hf] at h; exact absurd h (by simp)
        | some sym =>
          simp only [hf] at h
          have hstore : labelDefs (if sym.is_global then
              [AInstr.adrpX1 name, AInstr.addX1 name, AInstr.strW0X1]
            else if sym.is_param then [AInstr.strW0fp (-(sym.param_index + 1) * 8)]
            else [AInstr.strW0fp (-sym.offset)]) = [] := by
            split
            · rfl
            · split <;> rfl
          split at h
          · obtain ⟨⟨stA, cl2⟩, hcl2, h⟩ := except_bind_eq_ok h
            obtain ⟨y, hy, h⟩ := except_bind_eq_ok h
            simp only [Except.ok.injEq] at hy
            subst hy
            simp only [Except.ok.injEq, Prod.mk.injEq] at h
            obtain ⟨h1, h2⟩ := h
            subst h1; subst h2
            have hL := ih _ st1 stA cl2 hcl2
            have hcomp : EInv st1 stA ([AInstr.pushX0] ++ cl2 ++ [AInstr.movW1W0, AInstr.popX0] ++
                (if op = 43 then [AInstr.addW011] else [AInstr.subW011])) := by
              refine EInv_right _ _ _ _ (EInv_right _ _ _ _ (EInv_left _ _ _ _ rfl hL) rfl) ?_
              split <;> rfl
            exact EInv_right _ _ _ _ (EInv_comp hR hcomp) hstore
          · obtain ⟨y, hy, h⟩ := except_bind_eq_ok h
            simp only [Except.ok.injEq] at hy
            subst hy
            simp only [Except.ok.injEq, Prod.mk.injEq] at h
            obtain ⟨h1, h2⟩ := h
            subst h1; subst h2
            exact EInv_right _ _ _ _ (EInv_right _ _ _ _ hR rfl) hstore
      | array_access name idx =>
        obtain ⟨⟨st2, ci⟩, hci, h⟩ := except_bind_eq_ok h
        have hI := ih idx st1 st2 ci hci
        cases hf : find_symbol st2 name with
        | none => simp only [hf] at h; exact absurd h (by simp)
        | some sym =>
          simp only [hf, Except.ok.injEq, Prod.mk.injEq] at h
          obtain ⟨h1, h2⟩ := h
          subst h1; subst h2
          have hbase : labelDefs (if sym.is_global then [AInstr.adrpX1 name, AInstr.addX1 name]
              else [AInstr.subX1fp sym.offset]) = [] := by split <;> rfl
          have e1 : EInv st st1 (cr ++ [AInstr.pushX0]) := EInv_right _ _ _ _ hR rfl
          have e2 := EInv_comp e1 hI
          have e3 := EInv_right _ _ _ _ e2 (rfl : labelDefs [AInstr.pushX0] = [])
          have e4 := EInv_right _ _ _ _ e3 hbase
          exact EInv_right _ _ _ _ e4 rfl
      | num m => simp only [Except.ok.injEq, Prod.mk.injEq] at h
                 obtain ⟨h1, h2⟩ := h; subst h1; subst h2; exact hR
      | strLit s2 => simp only [Except.ok.injEq, Prod.mk.injEq] at h
                     obtain ⟨h1, h2⟩ := h; subst h1; subst h2; exact hR
      | binop op2 l2 r2 => simp only [Except.ok.injEq, Prod.mk.injEq] at h
                           obtain ⟨h1, h2⟩ := h; subst h1; subst h2; exact hR
      | unop op2 o2 => simp only [Except.ok.injEq, Prod.mk.injEq] at h
                       obtain ⟨h1, h2⟩ := h; subst h1; subst h2; exact hR
      | assign l2 r2 op2 => simp only [Except.ok.injEq, Prod.mk.injEq] at h
                            obtain ⟨h1, h2⟩ := h; subst h1; subst h2; exact hR
      | call n2 a2 => simp only [Except.ok.injEq, Prod.mk.injEq] at h
                      obtain ⟨h1, h2⟩ := h; subst h1; subst h2; exact hR
      | if_stmt c2 t2 e2 => simp only [Except.ok.injEq, Prod.mk.injEq] at h
                            obtain ⟨h1, h2⟩ := h; subst h1; subst h2; exact hR
      | while_stmt c2 b2 => simp only [Except.ok.injEq, Prod.mk.injEq] at h
                            obtain ⟨h1, h2⟩ := h; subst h1; subst h2; exact hR
      | for_stmt i2 c2 u2 b2 => simp only [Except.ok.injEq, Prod.mk.injEq] at h
                                obtain ⟨h1, h2⟩ := h; subst h1; subst h2; exact hR
      | ret v2 => simp only [Except.ok.injEq, Prod.mk.injEq] at h
                  obtain ⟨h1, h2⟩ := h; subst h1; subst h2; exact hR
      | block ss2 => simp only [Except.ok.injEq, Prod.mk.injEq] at h
                     obtain ⟨h1, h2⟩ := h; subst h1; subst h2; exact hR
      | func n2 p2 b2 v2 => simp only [Except.ok.injEq, Prod.mk.injEq] at h
                            obtain ⟨h1, h2⟩ := h; subst h1; subst h2; exact hR
      | vardecl n2 i2 a2 s2 => simp only [Except.ok.injEq, Prod.mk.injEq] at h
                               obtain ⟨h1, h2⟩ := h; subst h1; subst h2; exact hR
      | program g2 f2 => simp only [Except.ok.injEq, Prod.mk.injEq] at h
                         obtain ⟨h1, h2⟩ := h; subst h1; subst h2; exact hR
      | addr n2 => simp only [Except.ok.injEq, Prod.mk.injEq] at h
                   obtain ⟨h1, h2⟩ := h; subst h1; subst h2; exact hR
    | call name args =>
      simp only [gen_expr_arm64] at h
      obtain ⟨⟨st1, cArgs⟩, hargs, h⟩ := except_bind_eq_ok h
      simp only [Except.ok.injEq, Prod.mk.injEq] at h
      obtain ⟨h1, h2⟩ := h
      subst h1; subst h2
      have hA := gen_args_fold_inv n (fun e st st' ins => ih e st st' ins) args st st1 cArgs hargs
      refine EInv_right _ _ _ _ (EInv_right _ _ _ _ hA (labelDefs_map_popX _)) rfl
    | if_stmt c t e => simp [gen_expr_arm64] at h
    | while_stmt c b => simp [gen_expr_arm64] at h
    | for_stmt i c u b => simp [gen_expr_arm64] at h
    | ret v => simp [gen_expr_arm64] at h
    | block ss => simp [gen_expr_arm64] at h
    | func n2 p b v => simp [gen_expr_arm64] at h
    | vardecl n2 i a s => simp [gen_expr_arm64] at h
    | program g f => simp [gen_expr_arm64] at h

end Minicc

namespace Minicc

set_option maxHeartbeats 4000000

/-- Label-definition specification: all label numbers defined in the
code lie in the half-open interval, and no number repeats. -/
def LS (k k' : Nat) (ins : List AInstr) : Prop :=
  (∀ n ∈ labelDefs ins, k ≤ n ∧ n < k') ∧ (labelDefs ins).Nodup

theorem LS_nil {ins : List AInstr} (h : labelDefs ins = []) (k k' : Nat) : LS k k' ins := by
  constructor <;> simp [h]

theorem LS_widen {a b a' b' : Nat} {ins : List AInstr} (h : LS a b ins)
    (ha : a' ≤ a) (hb : b ≤ b') : LS a' b' ins := by
  obtain ⟨hbound, hnodup⟩ := h
  refine ⟨fun n hn => ?_, hnodup⟩
  have := hbound n hn
  omega

theorem LS_append {k1 k2 k3 : Nat} {c1 c2 : List AInstr}
    (h1 : LS k1 k2 c1) (h2 : LS k2 k3 c2) (h12 : k1 ≤ k2) (h23 : k2 ≤ k3) :
    LS k1 k3 (c1 ++ c2) := by
  obtain ⟨hb1, hn1⟩ := h1
  obtain ⟨hb2, hn2⟩ := h2
  constructor
  · intro n hn
    rw [labelDefs_append, List.mem_append] at hn
    rcases hn with hn | hn
    · have := hb1 n hn; omega
    · have := hb2 n hn; omega
  · rw [labelDefs_append]
    refine List.Nodup.append hn1 hn2 fun n hna hnb => ?_
    have := hb1 n hna
    have := hb2 n hnb
    omega

theorem LS_append_before {k1 k2 lo : Nat} {c1 c2 : List AInstr}
    (h1 : LS k1 k2 c1) (h2 : LS lo (k1 + 1) c2) (hlo : lo ≤ k1)
    (hmem : ∀ n ∈ labelDefs c2, n < k1 ∨ k2 ≤ n) :
    LS lo (max k2 (k1 + 1)) (c1 ++ c2) := by
  obtain ⟨hb1, hn1⟩ := h1
  obtain ⟨hb2, hn2⟩ := h2
  constructor
  · intro n hn
    rw [labelDefs_append, List.mem_append] at hn
    rcases hn with hn | hn
    · have := hb1 n hn; omega
    · have := hb2 n hn; omega
  · rw [labelDefs_append]
    refine List.Nodup.append hn1 hn2 fun n hna hnb => ?_
    have := hb1 n hna
    have := hb2 n hnb
    have := hmem n hnb
    omega

theorem EInv_LS {st st' : GenSt} {ins : List AInstr} (h : EInv st st' ins) :
    LS st.label_count st'.label_count ins :=
  ⟨h.2.2.2.2.1, h.2.2.2.2.2⟩

/-- Invariant of one statement-generation step: platform flag unchanged,
label counter monotone, labels defined in the emitted code fresh,
in-range and distinct. -/
def SInv (st st' : GenSt) (ins : List AInstr) : Prop :=
  st'.is_linux = st.is_linux ∧
  st.label_count ≤ st'.label_count ∧
  LS st.label_count st'.label_count ins

/-- Every local (non-global non-parameter) symbol in the table has a
positive offset divisible by 4, and the running stack offset is a
nonnegative multiple of 4. -/
def local_offsets_ok (st : GenSt) : Prop :=
  0 ≤ st.stack_offset ∧ (4 : Int) ∣ st.stack_offset ∧
  ∀ sym ∈ st.symbols, sym.is_global = false → sym.is_param = false →
    0 < sym.offset ∧ (4 : Int) ∣ sym.offset

/-- Array sizes of every variable declaration in statement position are
nonnegative (true of every parser-produced tree, since the lexer only
builds nonnegative number tokens).  Fueled for kernel computability. -/
def stmt_sizes_ok : Nat → AST → Bool
  | 0, _ => true
  | fuel + 1, s =>
    match s with
    | .vardecl _ _ is_array array_size => !is_array || decide (0 ≤ array_size)
    | .if_stmt _ t e =>
      stmt_sizes_ok fuel t && (match e with | some x => stmt_sizes_ok fuel x | none => true)
    | .while_stmt _ b => stmt_sizes_ok fuel b
    | .for_stmt i _ _ b =>
      (match i with | some x => stmt_sizes_ok fuel x | none => true) && stmt_sizes_ok fuel b
    | .block ss => ss.all (fun x => stmt_sizes_ok fuel x)
    | _ => true

theorem EInv_offsets {st st' : GenSt} {ins : List AInstr} (h : EInv st st' ins)
    (ho : local_offsets_ok st) : local_offsets_ok st' := by
  obtain ⟨hs, hso, _⟩ := h
  obtain ⟨h1, h2, h3⟩ := ho
  exact ⟨hso ▸ h1, hso ▸ h2, hs ▸ h3⟩

theorem EInv_SInv {st st' : GenSt} {ins : List AInstr} (h : EInv st st' ins) :
    SInv st st' ins :=
  ⟨h.2.2.1, h.2.2.2.1, EInv_LS h⟩

end Minicc

namespace Minicc

set_option maxHeartbeats 4000000

theorem SInv_nil {st : GenSt} {ins : List AInstr} (h : labelDefs ins = []) : SInv st st ins :=
  ⟨rfl, le_refl _, LS_nil h _ _⟩

theorem SInv_comp {st st1 st2 : GenSt} {c1 c2 : List AInstr}
    (h1 : SInv st st1 c1) (h2 : SInv st1 st2 c2) : SInv st st2 (c1 ++ c2) := by
  obtain ⟨hl1, hk1, hs1⟩ := h1
  obtain ⟨hl2, hk2, hs2⟩ := h2
  exact ⟨hl2.trans hl1, hk1.trans hk2, LS_append hs1 hs2 hk1 hk2⟩

theorem SInv_right {st st' : GenSt} {c1 c2 : List AInstr}
    (h1 : SInv st st' c1) (h : labelDefs c2 = []) : SInv st st' (c1 ++ c2) :=
  SInv_comp h1 (SInv_nil h)

theorem SInv_left {st st' : GenSt} {c1 c2 : List AInstr}
    (h : labelDefs c1 = []) (h2 : SInv st st' c2) : SInv st st' (c1 ++ c2) :=
  SInv_comp (SInv_nil h) h2

theorem gen_block_fold_inv (n : Nat)
    (ihs : ∀ (s : AST) (st st' : GenSt) (ins : List AInstr),
        gen_stmt_arm64 n st s = .ok (st', ins) →
        SInv st st' ins ∧
          (stmt_sizes_ok n s = true → local_offsets_ok st → local_offsets_ok st')) :
    ∀ (stmts : List AST) (stAcc : GenSt) (cAcc : List AInstr) (st' : GenSt)
      (code : List AInstr),
      (stmts.foldlM (fun (acc : GenSt × List AInstr) stm => do
          let (st', c) ← gen_stmt_arm64 n acc.1 stm
          Except.ok (st', acc.2 ++ c)) (stAcc, cAcc)) = .ok (st', code) →
      ∃ newcode, code = cAcc ++ newcode ∧ SInv stAcc st' newcode ∧
        ((∀ s ∈ stmts, stmt_sizes_ok n s = true) →
          local_offsets_ok stAcc → local_offsets_ok st') := by
  intro stmts
  induction stmts with
  | nil =>
    intro stAcc cAcc st' code h
    simp only [List.foldlM_nil] at h
    have h' : (Except.ok (stAcc, cAcc) : Except GenErr (GenSt × List AInstr)) =
        .ok (st', code) := h
    simp only [Except.ok.injEq, Prod.mk.injEq] at h'
    obtain ⟨h1, h2⟩ := h'
    subst h1; subst h2
    exact ⟨[], by simp, SInv_nil rfl, fun _ ho => ho⟩
  | cons a rest ihl =>
    intro stAcc cAcc st' code h
    simp only [List.foldlM_cons] at h
    obtain ⟨⟨stB, cB⟩, hfa, hrest⟩ := except_bind_eq_ok h
    obtain ⟨⟨stA, cStep⟩, hga, hfa2⟩ := except_bind_eq_ok hfa
    simp only [Except.ok.injEq, Prod.mk.injEq] at hfa2
    obtain ⟨hh1, hh2⟩ := hfa2
    subst hh1; subst hh2
    obtain ⟨nc2, hcode, hsinv, hoffs⟩ := ihl stA (cAcc ++ cStep) st' code hrest
    have hstep := ihs a stAcc stA cStep hga
    refine ⟨cStep ++ nc2, by simp [hcode], SInv_comp hstep.1 hsinv, fun hsz ho => ?_⟩
    refine hoffs (fun s hs => hsz s (by simp [hs])) ?_
    exact hstep.2 (hsz a (by simp)) ho

end Minicc

namespace Minicc

set_option maxHeartbeats 8000000

theorem add_symbol_local (st : GenSt) (name : String) :
    add_symbol st name false false 0 =
      ({ name := name, offset := st.stack_offset + 8, is_global := false, is_param := false,
         param_index := 0, is_array := false, array_size := 0 },
       { st with
          symbols := { name := name, offset := st.stack_offset + 8, is_global := false,
                       is_param := false, param_index := 0, is_array := false,
                       array_size := 0 } :: st.symbols,
          stack_offset := st.stack_offset + 8 }) := rfl

theorem except_bind_assoc {α β γ : Type} (x : Except GenErr α)
    (f : α → Except GenErr β) (g : β → Except GenErr γ) :
    (x >>= f) >>= g = x >>= fun a => f a >>= g := by
  cases x <;> rfl

theorem local_offsets_push (st : GenSt) (sym : Symbol) (so : Int)
    (ho : local_offsets_ok st) (h1 : 0 < so) (h2 : (4 : Int) ∣ so)
    (h3 : 0 < sym.offset ∧ (4 : Int) ∣ sym.offset) :
    local_offsets_ok { st with symbols := sym :: st.symbols, stack_offset := so } := by
  obtain ⟨o1, o2, o3⟩ := ho
  refine ⟨le_of_lt h1, h2, ?_⟩
  intro s hs hg hp
  have hs2 : s ∈ sym :: st.symbols := hs
  rcases List.mem_cons.mp hs2 with hs2 | hs2
  · subst hs2; exact h3
  · exact o3 s hs2 hg hp

theorem gen_stmt_arm64_inv : ∀ (fuel : Nat) (s : AST) (st st' : GenSt) (ins : List AInstr),
    gen_stmt_arm64 fuel st s = .ok (st', ins) →
    SInv st st' ins ∧
      (stmt_sizes_ok fuel s = true → local_offsets_ok st → local_offsets_ok st') := by
  intro fuel
  induction fuel with
  | zero => intro s st st' ins h; simp [gen_stmt_arm64] at h
  | succ n ih =>
    intro s st st' ins h
    cases s with
    | vardecl name ini is_array array_size =>
      simp only [gen_stmt_arm64, add_symbol_local] at h
      cases is_array with
      | false =>
        simp only [Bool.false_eq_true, if_false, ite_false] at h
        cases ini with
        | none =>
          simp only [Except.ok.injEq, Prod.mk.injEq] at h
          obtain ⟨h1, h2⟩ := h
          subst h1; subst h2
          refine ⟨⟨rfl, le_refl _, ?_⟩, fun hsz ho => ?_⟩
          · exact LS_nil (show labelDefs ([] : List AInstr) = [] from rfl) _ _
          · obtain ⟨ho1, ho2, ho3⟩ := ho
            exact local_offsets_push st _ (st.stack_offset + 8) ⟨ho1, ho2, ho3⟩ (by omega)
              (by omega) ⟨show (0:Int) < st.stack_offset + 8 by omega,
                show (4:Int) ∣ st.stack_offset + 8 by omega⟩
        | some e =>
          obtain ⟨⟨st3, ce⟩, hce, h⟩ := except_bind_eq_ok h
          simp only [Except.ok.injEq, Prod.mk.injEq] at h
          obtain ⟨h1, h2⟩ := h
          subst h1; subst h2
          have hE := gen_expr_arm64_inv n e _ st3 ce hce
          have hS2 : SInv st st3 ce :=
            ⟨hE.2.2.1, hE.2.2.2.1, hE.2.2.2.2.1, hE.2.2.2.2.2⟩
          refine ⟨SInv_right hS2 rfl, fun hsz ho => ?_⟩
          refine EInv_offsets hE ?_
          obtain ⟨ho1, ho2, ho3⟩ := ho
          exact local_offsets_push st _ (st.stack_offset + 8) ⟨ho1, ho2, ho3⟩ (by omega)
            (by omega) ⟨show (0:Int) < st.stack_offset + 8 by omega,
              show (4:Int) ∣ st.stack_offset + 8 by omega⟩
      | true =>
        simp only [if_true, ite_true, List.tail_cons] at h
        have hsz' : stmt_sizes_ok (n + 1) (AST.vardecl name ini true array_size) = true →
            0 ≤ array_size := by
          intro hs
          simp [stmt_sizes_ok] at hs
          exact hs
        cases ini with
        | none =>
          simp only [Except.ok.injEq, Prod.mk.injEq] at h
          obtain ⟨h1, h2⟩ := h
          subst h1; subst h2
          refine ⟨⟨rfl, le_refl _, ?_⟩, fun hsz ho => ?_⟩
          · exact LS_nil (show labelDefs ([] : List AInstr) = [] from rfl) _ _
          · have hs0 := hsz' hsz
            obtain ⟨ho1, ho2, ho3⟩ := ho
            exact local_offsets_push st _ (st.stack_offset + 8 + (array_size - 1) * 4)
              ⟨ho1, ho2, ho3⟩ (by omega) (by omega)
              ⟨show (0:Int) < st.stack_offset + 8 + (array_size - 1) * 4 by omega,
                show (4:Int) ∣ st.stack_offset + 8 + (array_size - 1) * 4 by omega⟩
        | some e =>
          obtain ⟨⟨st3, ce⟩, hce, h⟩ := except_bind_eq_ok h
          simp only [Except.ok.injEq, Prod.mk.injEq] at h
          obtain ⟨h1, h2⟩ := h
          subst h1; subst h2
          have hE := gen_expr_arm64_inv n e _ st3 ce hce
          have hS2 : SInv st st3 ce :=
            ⟨hE.2.2.1, hE.2.2.2.1, hE.2.2.2.2.1, hE.2.2.2.2.2⟩
          refine ⟨SInv_right hS2 rfl, fun hsz ho => ?_⟩
          have hs0 := hsz' hsz
          refine EInv_offsets hE ?_
          obtain ⟨ho1, ho2, ho3⟩ := ho
          exact local_offsets_push st _ (st.stack_offset + 8 + (array_size - 1) * 4)
            ⟨ho1, ho2, ho3⟩ (by omega) (by omega)
            ⟨show (0:Int) < st.stack_offset + 8 + (array_size - 1) * 4 by omega,
              show (4:Int) ∣ st.stack_offset + 8 + (array_size - 1) * 4 by omega⟩
    | block ss =>
      simp only [gen_stmt_arm64] at h
      obtain ⟨newcode, hcode, hsinv, hoffs⟩ :=
        gen_block_fold_inv n (fun s st st' ins => ih s st st' ins) ss st [] st' ins h
      subst hcode
      refine ⟨by simpa using hsinv, fun hsz ho => ?_⟩
      refine hoffs ?_ ho
      intro s hs
      simp only [stmt_sizes_ok, List.all_eq_true] at hsz
      exact hsz s hs
    | ret v =>
      simp only [gen_stmt_arm64] at h
      cases v with
      | none =>
        obtain ⟨⟨st1, cv⟩, hcv, h⟩ := except_bind_eq_ok h
        simp only [Except.ok.injEq, Prod.mk.injEq] at hcv h
        obtain ⟨hh1, hh2⟩ := hcv
        subst hh1; subst hh2
        obtain ⟨h1, h2⟩ := h
        subst h1; subst h2
        exact ⟨SInv_nil rfl, fun _ ho => ho⟩
      | some e =>
        obtain ⟨⟨st1, cv⟩, hcv, h⟩ := except_bind_eq_ok h
        simp only [Except.ok.injEq, Prod.mk.injEq] at h
        obtain ⟨h1, h2⟩ := h
        subst h1; subst h2
        have hE := gen_expr_arm64_inv n e st st1 cv hcv
        exact ⟨SInv_right (EInv_SInv hE) rfl, fun _ => EInv_offsets hE⟩
    | num m =>
      simp only [gen_stmt_arm64] at h
      have hE := gen_expr_arm64_inv n _ st st' ins h
      exact ⟨EInv_SInv hE, fun _ => EInv_offsets hE⟩
    | strLit s2 =>
      simp only [gen_stmt_arm64] at h
      have hE := gen_expr_arm64_inv n _ st st' ins h
      exact ⟨EInv_SInv hE, fun _ => EInv_offsets hE⟩
    | var name =>
      simp only [gen_stmt_arm64] at h
      have hE := gen_expr_arm64_inv n _ st st' ins h
      exact ⟨EInv_SInv hE, fun _ => EInv_offsets hE⟩
    | binop op l r =>
      simp only [gen_stmt_arm64] at h
      have hE := gen_expr_arm64_inv n _ st st' ins h
      exact ⟨EInv_SInv hE, fun _ => EInv_offsets hE⟩
    | unop op o =>
      simp only [gen_stmt_arm64] at h
      have hE := gen_expr_arm64_inv n _ st st' ins h
      exact ⟨EInv_SInv hE, fun _ => EInv_offsets hE⟩
    | assign l r op =>
      simp only [gen_stmt_arm64] at h
      have hE := gen_expr_arm64_inv n _ st st' ins h
      exact ⟨EInv_SInv hE, fun _ => EInv_offsets hE⟩
    | call name args =>
      simp only [gen_stmt_arm64] at h
      have hE := gen_expr_arm64_inv n _ st st' ins h
      exact ⟨EInv_SInv hE, fun _ => EInv_offsets hE⟩
    | array_access name idx =>
      simp only [gen_stmt_arm64] at h
      have hE := gen_expr_arm64_inv n _ st st' ins h
      exact ⟨EInv_SInv hE, fun _ => EInv_offsets hE⟩
    | addr name =>
      simp only [gen_stmt_arm64] at h
      have hE := gen_expr_arm64_inv n _ st st' ins h
      exact ⟨EInv_SInv hE, fun _ => EInv_offsets hE⟩
    | func n2 p b v =>
      simp only [gen_stmt_arm64] at h
      have hE := gen_expr_arm64_inv n _ st st' ins h
      exact ⟨EInv_SInv hE, fun _ => EInv_offsets hE⟩
    | program g f =>
      simp only [gen_stmt_arm64] at h
      have hE := gen_expr_arm64_inv n _ st st' ins h
      exact ⟨EInv_SInv hE, fun _ => EInv_offsets hE⟩
    | if_stmt cond thenB elseB =>
      cases elseB with
      | some eb =>
        simp only [gen_stmt_arm64] at h
        obtain ⟨⟨st1, cc⟩, hcc, h⟩ := except_bind_eq_ok h
        obtain ⟨⟨st2, ct⟩, hct, h⟩ := except_bind_eq_ok h
        obtain ⟨⟨st3, ce⟩, hce, h⟩ := except_bind_eq_ok h
        simp only [Except.ok.injEq, Prod.mk.injEq] at h
        obtain ⟨h1, h2⟩ := h
        subst h1; subst h2
        have hE := gen_expr_arm64_inv n cond _ st1 cc hcc
        have hT := ih thenB st1 st2 ct hct
        have hEe := ih eb st2 st3 ce hce
        have hccB : ∀ m ∈ labelDefs cc, st.label_count + 2 ≤ m ∧ m < st1.label_count :=
          hE.2.2.2.2.1
        have hccN : (labelDefs cc).Nodup := hE.2.2.2.2.2
        have hlin1 : st1.is_linux = st.is_linux := hE.2.2.1
        have hk1 : st.label_count + 2 ≤ st1.label_count := hE.2.2.2.1
        obtain ⟨hlin2, hk2, hctB, hctN⟩ := hT.1
        obtain ⟨hlin3, hk3, hceB, hceN⟩ := hEe.1
        have e1 : labelDefs [AInstr.cbzW0 st.label_count] = [] := rfl
        have e2 : labelDefs [AInstr.bLbl (st.label_count + 1),
            AInstr.labelDef st.label_count] = [st.label_count] := rfl
        have e3 : labelDefs [AInstr.labelDef (st.label_count + 1)] =
            [st.label_count + 1] := rfl
        refine ⟨⟨?_, by omega, ?_, ?_⟩, fun hsz ho => ?_⟩
        · rw [hlin3, hlin2, hlin1]
        · intro m hm
          simp only [labelDefs_append, e1, e2, e3] at hm
          simp only [List.append_nil, List.nil_append, List.append_assoc,
            List.singleton_append, List.mem_append, List.mem_cons,
            List.not_mem_nil, or_false, false_or, or_assoc] at hm
          rcases hm with hm | hm | hm | hm | hm
          · have := hccB m hm; omega
          · have := hctB m hm; omega
          · omega
          · have := hceB m hm; omega
          · omega
        · simp only [labelDefs_append, e1, e2, e3]
          simp only [List.append_nil, List.nil_append, List.append_assoc,
            List.singleton_append]
          refine List.Nodup.append hccN ?_ (fun x hx hy => ?_)
          · refine List.Nodup.append hctN ?_ (fun x hx hy => ?_)
            · refine List.nodup_cons.mpr ⟨?_, ?_⟩
              · intro hk
                rcases List.mem_append.mp hk with hk | hk
                · have := hceB _ hk; omega
                · have := List.mem_singleton.mp hk; omega
              · refine List.Nodup.append hceN (List.nodup_singleton _) (fun x hx hy => ?_)
                have := hceB x hx
                have := List.mem_singleton.mp hy
                omega
            · have hxb := hctB x hx
              rcases List.mem_cons.mp hy with hy | hy
              · omega
              · rcases List.mem_append.mp hy with hy | hy
                · have := hceB x hy; omega
                · have := List.mem_singleton.mp hy; omega
          · have hxb := hccB x hx
            rcases List.mem_append.mp hy with hy | hy
            · have := hctB x hy; omega
            · rcases List.mem_cons.mp hy with hy | hy
              · omega
              · rcases List.mem_append.mp hy with hy | hy
                · have := hceB x hy; omega
                · have := List.mem_singleton.mp hy; omega
        · simp only [stmt_sizes_ok, Bool.and_eq_true] at hsz
          obtain ⟨hszT, hszE⟩ := hsz
          have hoL : local_offsets_ok { st with label_count := st.label_count + 2 } := ho
          exact hEe.2 hszE (hT.2 hszT (EInv_offsets hE hoL))
      | none =>
        simp only [gen_stmt_arm64] at h
        obtain ⟨⟨st1, cc⟩, hcc, h⟩ := except_bind_eq_ok h
        obtain ⟨⟨st2, ct⟩, hct, h⟩ := except_bind_eq_ok h
        simp only [Except.ok.injEq, Prod.mk.injEq] at h
        obtain ⟨h1, h2⟩ := h
        subst h1; subst h2
        have hE := gen_expr_arm64_inv n cond _ st1 cc hcc
        have hT := ih thenB st1 st2 ct hct
        have hccB : ∀ m ∈ labelDefs cc, st.label_count + 2 ≤ m ∧ m < st1.label_count :=
          hE.2.2.2.2.1
        have hccN : (labelDefs cc).Nodup := hE.2.2.2.2.2
        have hlin1 : st1.is_linux = st.is_linux := hE.2.2.1
        have hk1 : st.label_count + 2 ≤ st1.label_count := hE.2.2.2.1
        obtain ⟨hlin2, hk2, hctB, hctN⟩ := hT.1
        have e1 : labelDefs [AInstr.cbzW0 st.label_count] = [] := rfl
        have e2 : labelDefs [AInstr.bLbl (st.label_count + 1), AInstr.labelDef st.label_count,
            AInstr.labelDef (st.label_count + 1)] =
            [st.label_count, st.label_count + 1] := rfl
        refine ⟨⟨?_, by omega, ?_, ?_⟩, fun hsz ho => ?_⟩
        · rw [hlin2, hlin1]
        · intro m hm
          simp only [labelDefs_append, e1, e2] at hm
          simp only [List.append_nil, List.nil_append, List.append_assoc,
            List.singleton_append, List.mem_append, List.mem_cons,
            List.not_mem_nil, or_false, false_or, or_assoc] at hm
          rcases hm with hm | hm | hm | hm
          · have := hccB m hm; omega
          · have := hctB m hm; omega
          · omega
          · omega
        · simp only [labelDefs_append, e1, e2]
          simp only [List.append_nil, List.nil_append, List.append_assoc,
            List.singleton_append]
          refine List.Nodup.append hccN ?_ (fun x hx hy => ?_)
          · refine List.Nodup.append hctN ?_ (fun x hx hy => ?_)
            · refine List.nodup_cons.mpr ⟨?_, List.nodup_singleton _⟩
              intro hk
              have := List.mem_singleton.mp hk
              omega
            · have hxb := hctB x hx
              rcases List.mem_cons.mp hy with hy | hy
              · omega
              · have := List.mem_singleton.mp hy; omega
          · have hxb := hccB x hx
            rcases List.mem_append.mp hy with hy | hy
            · have := hctB x hy; omega
            · rcases List.mem_cons.mp hy with hy | hy
              · omega
              · have := List.mem_singleton.mp hy; omega
        · simp only [stmt_sizes_ok, Bool.and_eq_true] at hsz
          have hoL : local_offsets_ok { st with label_count := st.label_count + 2 } := ho
          exact hT.2 hsz.1 (EInv_offsets hE hoL)
    | while_stmt cond body =>
      simp only [gen_stmt_arm64] at h
      obtain ⟨⟨st1, cc⟩, hcc, h⟩ := except_bind_eq_ok h
      obtain ⟨⟨st2, cb⟩, hcb, h⟩ := except_bind_eq_ok h
      simp only [Except.ok.injEq, Prod.mk.injEq] at h
      obtain ⟨h1, h2⟩ := h
      subst h1; subst h2
      have hE := gen_expr_arm64_inv n cond _ st1 cc hcc
      have hB := ih body st1 st2 cb hcb
      have hccB : ∀ m ∈ labelDefs cc, st.label_count + 2 ≤ m ∧ m < st1.label_count :=
        hE.2.2.2.2.1
      have hccN : (labelDefs cc).Nodup := hE.2.2.2.2.2
      have hlin1 : st1.is_linux = st.is_linux := hE.2.2.1
      have hk1 : st.label_count + 2 ≤ st1.label_count := hE.2.2.2.1
      obtain ⟨hlin2, hk2, hcbB, hcbN⟩ := hB.1
      have e1 : labelDefs [AInstr.labelDef st.label_count] = [st.label_count] := rfl
      have e2 : labelDefs [AInstr.cbzW0 (st.label_count + 1)] = [] := rfl
      have e3 : labelDefs [AInstr.bLbl st.label_count,
          AInstr.labelDef (st.label_count + 1)] = [st.label_count + 1] := rfl
      refine ⟨⟨?_, by omega, ?_, ?_⟩, fun hsz ho => ?_⟩
      · rw [hlin2, hlin1]
      · intro m hm
        simp only [labelDefs_append, e1, e2, e3] at hm
        simp only [List.append_nil, List.nil_append, List.append_assoc,
          List.singleton_append, List.mem_append, List.mem_cons,
          List.not_mem_nil, or_false, false_or, or_assoc] at hm
        rcases hm with hm | hm | hm | hm
        · omega
        · have := hccB m hm; omega
        · have := hcbB m hm; omega
        · omega
      · simp only [labelDefs_append, e1, e2, e3]
        simp only [List.append_nil, List.nil_append, List.append_assoc,
          List.singleton_append]
        refine List.nodup_cons.mpr ⟨?_, ?_⟩
        · intro hk
          rcases List.mem_append.mp hk with hk | hk
          · have := hccB _ hk; omega
          · rcases List.mem_append.mp hk with hk | hk
            · have := hcbB _ hk; omega
            · have := List.mem_singleton.mp hk; omega
        · refine List.Nodup.append hccN ?_ (fun x hx hy => ?_)
          · refine List.Nodup.append hcbN (List.nodup_singleton _) (fun x hx hy => ?_)
            have := hcbB x hx
            have := List.mem_singleton.mp hy
            omega
          · have hxb := hccB x hx
            rcases List.mem_append.mp hy with hy | hy
            · have := hcbB x hy; omega
            · have := List.mem_singleton.mp hy; omega
      · simp only [stmt_sizes_ok] at hsz
        have hoL : local_offsets_ok { st with label_count := st.label_count + 2 } := ho
        exact hB.2 hsz (EInv_offsets hE hoL)
    | for_stmt ini cond upd body =>
      have hunf : gen_stmt_arm64 (n + 1) st (.for_stmt ini cond upd body) = (do
          let (st1, cInit) ← (match ini with
            | some i => gen_stmt_arm64 n { st with label_count := st.label_count + 2 } i
            | none => .ok ({ st with label_count := st.label_count + 2 },
                ([] : List AInstr)))
          let (st2, cCond) ← (match cond with
            | some cnd => do
                let (stC, cc) ← gen_expr_arm64 n st1 cnd
                .ok (stC, cc ++ [AInstr.cbzW0 (st.label_count + 1)])
            | none => .ok (st1, ([] : List AInstr)))
          let (st3, cb) ← gen_stmt_arm64 n st2 body
          let (st4, cu) ← (match upd with
            | some u => gen_expr_arm64 n st3 u
            | none => .ok (st3, ([] : List AInstr)))
          Except.ok (st4, cInit ++ [AInstr.labelDef st.label_count] ++ cCond ++ cb ++ cu ++
              [AInstr.bLbl st.label_count, AInstr.labelDef (st.label_count + 1)])) := by
        cases ini <;> cases cond <;> cases upd <;> simp only [except_bind_assoc] <;> rfl
      rw [hunf] at h
      obtain ⟨⟨st1, cInit⟩, hini, h⟩ := except_bind_eq_ok h
      obtain ⟨⟨st2, cCond⟩, hcond, h⟩ := except_bind_eq_ok h
      obtain ⟨⟨st3, cb⟩, hcb, h⟩ := except_bind_eq_ok h
      obtain ⟨⟨st4, cu⟩, hupd, h⟩ := except_bind_eq_ok h
      simp only [Except.ok.injEq, Prod.mk.injEq] at h
      obtain ⟨h1, h2⟩ := h
      subst h1; subst h2
      have hI : SInv { st with label_count := st.label_count + 2 } st1 cInit ∧
          ((∀ i, ini = some i → stmt_sizes_ok n i = true) →
            local_offsets_ok { st with label_count := st.label_count + 2 } →
            local_offsets_ok st1) := by
        cases ini with
        | some i =>
          have hh := ih i _ st1 cInit hini
          exact ⟨hh.1, fun hs => hh.2 (hs i rfl)⟩
        | none =>
          have h2 : (Except.ok ({ st with label_count := st.label_count + 2 },
              ([] : List AInstr)) : Except GenErr (GenSt × List AInstr)) =
              .ok (st1, cInit) := hini
          simp only [Except.ok.injEq, Prod.mk.injEq] at h2
          obtain ⟨a, b⟩ := h2
          subst a; subst b
          exact ⟨SInv_nil (show labelDefs ([] : List AInstr) = [] from rfl),
            fun _ ho => ho⟩
      have hC : SInv st1 st2 cCond ∧
          (local_offsets_ok st1 → local_offsets_ok st2) := by
        cases cond with
        | some cnd =>
          obtain ⟨⟨stC, cc⟩, hcc, hco⟩ := except_bind_eq_ok hcond
          simp only [Except.ok.injEq, Prod.mk.injEq] at hco
          obtain ⟨a, b⟩ := hco
          subst a; subst b
          have hE2 := gen_expr_arm64_inv n cnd st1 stC cc hcc
          refine ⟨SInv_right (EInv_SInv hE2) rfl, fun ho => EInv_offsets hE2 ho⟩
        | none =>
          have h2 : (Except.ok (st1, ([] : List AInstr)) :
              Except GenErr (GenSt × List AInstr)) = .ok (st2, cCond) := hcond
          simp only [Except.ok.injEq, Prod.mk.injEq] at h2
          obtain ⟨a, b⟩ := h2
          subst a; subst b
          exact ⟨SInv_nil (show labelDefs ([] : List AInstr) = [] from rfl),
            fun ho => ho⟩
      have hB := ih body st2 st3 cb hcb
      have hU : SInv st3 st4 cu ∧
          (local_offsets_ok st3 → local_offsets_ok st4) := by
        cases upd with
        | some u =>
          have hE3 := gen_expr_arm64_inv n u st3 st4 cu hupd
          exact ⟨EInv_SInv hE3, fun ho => EInv_offsets hE3 ho⟩
        | none =>
          have h2 : (Except.ok (st3, ([] : List AInstr)) :
              Except GenErr (GenSt × List AInstr)) = .ok (st4, cu) := hupd
          simp only [Except.ok.injEq, Prod.mk.injEq] at h2
          obtain ⟨a, b⟩ := h2
          subst a; subst b
          exact ⟨SInv_nil (show labelDefs ([] : List AInstr) = [] from rfl),
            fun ho => ho⟩
      have hIB : ∀ m ∈ labelDefs cInit, st.label_count + 2 ≤ m ∧ m < st1.label_count :=
        hI.1.2.2.1
      have hIN : (labelDefs cInit).Nodup := hI.1.2.2.2
      have hlin1 : st1.is_linux = st.is_linux := hI.1.1
      have hk1 : st.label_count + 2 ≤ st1.label_count := hI.1.2.1
      obtain ⟨hlin2, hk2, hCB, hCN⟩ := hC.1
      obtain ⟨hlin3, hk3, hBB, hBN⟩ := hB.1
      obtain ⟨hlin4, hk4, hUB, hUN⟩ := hU.1
      have e1 : labelDefs [AInstr.labelDef st.label_count] = [st.label_count] := rfl
      have e2 : labelDefs [AInstr.bLbl st.label_count,
          AInstr.labelDef (st.label_count + 1)] = [st.label_count + 1] := rfl
      refine ⟨⟨?_, by omega, ?_, ?_⟩, fun hsz ho => ?_⟩
      · rw [hlin4, hlin3, hlin2, hlin1]
      · intro m hm
        simp only [labelDefs_append, e1, e2] at hm
        simp only [List.append_nil, List.nil_append, List.append_assoc,
          List.singleton_append, List.mem_append, List.mem_cons,
          List.not_mem_nil, or_false, false_or, or_assoc] at hm
        rcases hm with hm | hm | hm | hm | hm | hm
        · have := hIB m hm; omega
        · omega
        · have := hCB m hm; omega
        · have := hBB m hm; omega
        · have := hUB m hm; omega
        · omega
      · simp only [labelDefs_append, e1, e2]
        simp only [List.append_nil, List.nil_append, List.append_assoc,
          List.singleton_append]
        refine List.Nodup.append hIN ?_ (fun x hx hy => ?_)
        · refine List.nodup_cons.mpr ⟨?_, ?_⟩
          · intro hk
            rcases List.mem_append.mp hk with hk | hk
            · have := hCB _ hk; omega
            · rcases List.mem_append.mp hk with hk | hk
              · have := hBB _ hk; omega
              · rcases List.mem_append.mp hk with hk | hk
                · have := hUB _ hk; omega
                · have := List.mem_singleton.mp hk; omega
          · refine List.Nodup.append hCN ?_ (fun x hx hy => ?_)
            · refine List.Nodup.append hBN ?_ (fun x hx hy => ?_)
              · refine List.Nodup.append hUN (List.nodup_singleton _) (fun x hx hy => ?_)
                have := hUB x hx
                have := List.mem_singleton.mp hy
                omega
              · have hxb := hBB x hx
                rcases List.mem_append.mp hy with hy | hy
                · have := hUB x hy; omega
                · have := List.mem_singleton.mp hy; omega
            · have hxb := hCB x hx
              rcases List.mem_append.mp hy with hy | hy
              · have := hBB x hy; omega
              · rcases List.mem_append.mp hy with hy | hy
                · have := hUB x hy; omega
                · have := List.mem_singleton.mp hy; omega
        · have hxb := hIB x hx
          rcases List.mem_cons.mp hy with hy | hy
          · omega
          · rcases List.mem_append.mp hy with hy | hy
            · have := hCB x hy; omega
            · rcases List.mem_append.mp hy with hy | hy
              · have := hBB x hy; omega
              · rcases List.mem_append.mp hy with hy | hy
                · have := hUB x hy; omega
                · have := List.mem_singleton.mp hy; omega
      · simp only [stmt_sizes_ok, Bool.and_eq_true] at hsz
        obtain ⟨hszI, hszB⟩ := hsz
        have hoL : local_offsets_ok { st with label_count := st.label_count + 2 } := ho
        have ho1 := hI.2 (fun i hi => by subst hi; exact hszI) hoL
        exact hU.2 (hB.2 hszB (hC.2 ho1))

end Minicc

namespace Minicc

set_option maxHeartbeats 4000000

/-- Parameter-binding fold of `gen_func_arm64` (src/minicc.c lines
1576-1581), abstracted over its accumulator. -/
def param_fold (ps : List (Nat × String)) (acc : GenSt × List AInstr) : GenSt × List AInstr :=
  ps.foldl
    (fun (acc : GenSt × List AInstr) (p : Nat × String) =>
      let (_, st') := add_symbol acc.1 p.2 false true (Int.ofNat p.1)
      (st', acc.2 ++ [AInstr.strXfp p.1]))
    acc

theorem add_symbol_param (st : GenSt) (name : String) (idx : Int) :
    add_symbol st name false true idx =
      ({ name := name, offset := 0, is_global := false, is_param := true,
         param_index := idx, is_array := false, array_size := 0 },
       { st with
          symbols := { name := name, offset := 0, is_global := false, is_param := true,
                       param_index := idx, is_array := false,
                       array_size := 0 } :: st.symbols }) := rfl

theorem param_fold_inv : ∀ (ps : List (Nat × String)) (acc : GenSt × List AInstr),
    labelDefs (param_fold ps acc).2 = labelDefs acc.2 ∧
    (param_fold ps acc).1.label_count = acc.1.label_count ∧
    (param_fold ps acc).1.is_linux = acc.1.is_linux := by
  intro ps
  induction ps with
  | nil => intro acc; exact ⟨rfl, rfl, rfl⟩
  | cons p rest ihp =>
    intro acc
    have hstep : param_fold (p :: rest) acc =
        param_fold rest
          ((add_symbol acc.1 p.2 false true (Int.ofNat p.1)).2,
           acc.2 ++ [AInstr.strXfp p.1]) := rfl
    rw [hstep]
    have hh := ihp ((add_symbol acc.1 p.2 false true (Int.ofNat p.1)).2,
      acc.2 ++ [AInstr.strXfp p.1])
    obtain ⟨a, b, c⟩ := hh
    refine ⟨?_, ?_, ?_⟩
    · rw [a, labelDefs_append]
      simp [labelDefs]
    · rw [b, add_symbol_param]
    · rw [c, add_symbol_param]

/-- Unfolding of the function arm of `gen_func_arm64` through `param_fold`. -/
theorem gen_func_arm64_unfold (fuel : Nat) (st : GenSt) (name : String)
    (params : List String) (body : AST) (v : Bool) :
    gen_func_arm64 fuel st (.func name params body v) = (do
      let (st1, cb) ← gen_stmt_arm64 fuel
        { (param_fold params.enum ({ st with stack_offset := 0 }, ([] : List AInstr))).1 with
            stack_offset := (params.length : Int) * 8 } body
      Except.ok ({ st1 with symbols := st.symbols },
        [AInstr.globlDir ("_" ++ name), AInstr.p2align2, AInstr.asmLabel ("_" ++ name)] ++
        [AInstr.stpPush, AInstr.movFPsp, AInstr.subSP256] ++
        (param_fold params.enum ({ st with stack_offset := 0 }, ([] : List AInstr))).2 ++
        cb ++ [AInstr.movSPfp, AInstr.ldpPop, AInstr.retInstr, AInstr.blank])) := rfl

theorem gen_func_arm64_inv (fuel : Nat) (f : AST) (st st' : GenSt) (ins : List AInstr)
    (h : gen_func_arm64 fuel st f = .ok (st', ins)) : SInv st st' ins := by
  cases f with
  | num n => simp [gen_func_arm64] at h
  | strLit s => simp [gen_func_arm64] at h
  | var name => simp [gen_func_arm64] at h
  | binop op l r => simp [gen_func_arm64] at h
  | unop op o => simp [gen_func_arm64] at h
  | assign l r op => simp [gen_func_arm64] at h
  | call name args => simp [gen_func_arm64] at h
  | array_access name idx => simp [gen_func_arm64] at h
  | addr name => simp [gen_func_arm64] at h
  | vardecl name ini ia sz => simp [gen_func_arm64] at h
  | if_stmt c t e => simp [gen_func_arm64] at h
  | while_stmt c b => simp [gen_func_arm64] at h
  | for_stmt i c u b => simp [gen_func_arm64] at h
  | ret v => simp [gen_func_arm64] at h
  | block ss => simp [gen_func_arm64] at h
  | program g fs => simp [gen_func_arm64] at h
  | func name params body v =>
    rw [gen_func_arm64_unfold] at h
    obtain ⟨⟨st1, cb⟩, hb, h⟩ := except_bind_eq_ok h
    simp only [Except.ok.injEq, Prod.mk.injEq] at h
    obtain ⟨h1, h2⟩ := h
    subst h1; subst h2
    obtain ⟨hlin, hk, hB, hN⟩ := (gen_stmt_arm64_inv fuel body _ st1 cb hb).1
    have hP := param_fold_inv params.enum ({ st with stack_offset := 0 }, ([] : List AInstr))
    have hkP : (param_fold params.enum
        ({ st with stack_offset := 0 }, ([] : List AInstr))).1.label_count =
        st.label_count := hP.2.1
    have hlinP : (param_fold params.enum
        ({ st with stack_offset := 0 }, ([] : List AInstr))).1.is_linux =
        st.is_linux := hP.2.2
    have hlblP : labelDefs (param_fold params.enum
        ({ st with stack_offset := 0 }, ([] : List AInstr))).2 = [] := hP.1
    have e1 : labelDefs [AInstr.globlDir ("_" ++ name), AInstr.p2align2,
        AInstr.asmLabel ("_" ++ name)] = [] := rfl
    have e2 : labelDefs [AInstr.stpPush, AInstr.movFPsp, AInstr.subSP256] = [] := rfl
    have e3 : labelDefs [AInstr.movSPfp, AInstr.ldpPop, AInstr.retInstr,
        AInstr.blank] = [] := rfl
    have hlin2 : st1.is_linux = (param_fold params.enum
        ({ st with stack_offset := 0 }, ([] : List AInstr))).1.is_linux := hlin
    have hk2 : (param_fold params.enum
        ({ st with stack_offset := 0 }, ([] : List AInstr))).1.label_count ≤
        st1.label_count := hk
    have hB2 : ∀ m ∈ labelDefs cb, (param_fold params.enum
        ({ st with stack_offset := 0 }, ([] : List AInstr))).1.label_count ≤ m ∧
        m < st1.label_count := hB
    rw [hkP] at hk2 hB2
    rw [hlinP] at hlin2
    refine ⟨hlin2, hk2, ?_, ?_⟩
    · intro m hm
      simp only [labelDefs_append, e1, e2, e3, hlblP, List.nil_append,
        List.append_nil] at hm
      exact hB2 m hm
    · simp only [labelDefs_append, e1, e2, e3, hlblP, List.nil_append,
        List.append_nil]
      exact hN

theorem gen_funcs_fold_inv (fuel : Nat) :
    ∀ (fs : List AST) (stAcc : GenSt) (cAcc : List AInstr) (st' : GenSt) (code : List AInstr),
      (fs.foldlM (fun (acc : GenSt × List AInstr) f => do
          let (st', c) ← gen_func_arm64 fuel acc.1 f
          Except.ok (st', acc.2 ++ c)) (stAcc, cAcc)) = .ok (st', code) →
      ∃ newcode, code = cAcc ++ newcode ∧ SInv stAcc st' newcode := by
  intro fs
  induction fs with
  | nil =>
    intro stAcc cAcc st' code h
    simp only [List.foldlM_nil] at h
    have h2 : (Except.ok (stAcc, cAcc) : Except GenErr (GenSt × List AInstr)) =
        .ok (st', code) := h
    simp only [Except.ok.injEq, Prod.mk.injEq] at h2
    obtain ⟨a, b⟩ := h2
    subst a; subst b
    exact ⟨[], by simp, SInv_nil (show labelDefs ([] : List AInstr) = [] from rfl)⟩
  | cons a rest ihl =>
    intro stAcc cAcc st' code h
    simp only [List.foldlM_cons] at h
    obtain ⟨⟨stB, cB⟩, hfa, hrest⟩ := except_bind_eq_ok h
    obtain ⟨⟨stA, cStep⟩, hga, hfa2⟩ := except_bind_eq_ok hfa
    simp only [Except.ok.injEq, Prod.mk.injEq] at hfa2
    obtain ⟨hh1, hh2⟩ := hfa2
    subst hh1; subst hh2
    obtain ⟨nc2, hcode, hsinv⟩ := ihl stA (cAcc ++ cStep) st' code hrest
    have hstep := gen_func_arm64_inv fuel a stAcc stA cStep hga
    exact ⟨cStep ++ nc2, by simp [hcode], SInv_comp hstep hsinv⟩

/-- Global-symbol fold of `gen_program_arm64` (src/minicc.c lines 1600-1614). -/
def global_fold (st : GenSt) (gs : List AST) : GenSt :=
  gs.foldl (fun acc g =>
    match g with
    | .vardecl name _ is_array array_size =>
        let (sym, st') := add_symbol acc name true false 0
        if is_array then
          { st' with symbols :=
              ({ sym with is_array := true, array_size := array_size } :: st'.symbols.tail) }
        else st'
    | _ => acc) st

/-- Data-section fold of `gen_program_arm64` (src/minicc.c lines 1628-1646),
abstracted over its accumulator. -/
def data_code_fold (px : String) (gs : List AST) (acc : List AInstr) : List AInstr :=
  gs.foldl (fun acc g =>
    match g with
    | .vardecl name ini is_array array_size =>
        acc ++ [AInstr.globlDir (px ++ name), AInstr.p2align2,
                AInstr.asmLabel (px ++ name)] ++
        (if is_array then [AInstr.zeroDir (array_size * 4)]
         else match ini with
           | some e => [AInstr.longDir (ast_num_field e)]
           | none => [AInstr.longDir 0]) ++ [AInstr.blank]
    | _ => acc) acc

/-- Read-only-section fold of `gen_program_arm64` (src/minicc.c lines
1648-1654), abstracted over its accumulator. -/
def str_code_fold (px : String) (qs : List (Nat × String)) (acc : List AInstr) : List AInstr :=
  qs.foldl (fun acc (q : Nat × String) =>
    acc ++ [AInstr.asmLabel (px ++ "str" ++ toString q.1), AInstr.ascizDir q.2]) acc

theorem foldl_preserves_labels {α : Type} (f : GenSt → α → GenSt)
    (hf : ∀ st a, (f st a).label_count = st.label_count ∧ (f st a).is_linux = st.is_linux) :
    ∀ (l : List α) (st : GenSt),
      (l.foldl f st).label_count = st.label_count ∧ (l.foldl f st).is_linux = st.is_linux := by
  intro l
  induction l with
  | nil => intro st; exact ⟨rfl, rfl⟩
  | cons a rest ihl =>
    intro st
    have h1 := ihl (f st a)
    have h2 := hf st a
    exact ⟨by rw [List.foldl_cons, h1.1, h2.1], by rw [List.foldl_cons, h1.2, h2.2]⟩

theorem global_fold_inv (gs : List AST) (st : GenSt) :
    (global_fold st gs).label_count = st.label_count ∧
    (global_fold st gs).is_linux = st.is_linux := by
  refine foldl_preserves_labels _ ?_ gs st
  intro st g
  cases g with
  | vardecl name ini is_array array_size => cases is_array <;> exact ⟨rfl, rfl⟩
  | num n => exact ⟨rfl, rfl⟩
  | strLit s => exact ⟨rfl, rfl⟩
  | var name => exact ⟨rfl, rfl⟩
  | binop op l r => exact ⟨rfl, rfl⟩
  | unop op o => exact ⟨rfl, rfl⟩
  | assign l r op => exact ⟨rfl, rfl⟩
  | call name args => exact ⟨rfl, rfl⟩
  | array_access name idx => exact ⟨rfl, rfl⟩
  | addr name => exact ⟨rfl, rfl⟩
  | if_stmt c t e => exact ⟨rfl, rfl⟩
  | while_stmt c b => exact ⟨rfl, rfl⟩
  | for_stmt i c u b => exact ⟨rfl, rfl⟩
  | ret v => exact ⟨rfl, rfl⟩
  | block ss => exact ⟨rfl, rfl⟩
  | func n2 p b v => exact ⟨rfl, rfl⟩
  | program g2 f2 => exact ⟨rfl, rfl⟩

theorem data_code_no_labels (px : String) : ∀ (gs : List AST) (acc : List AInstr),
    labelDefs (data_code_fold px gs acc) = labelDefs acc := by
  intro gs
  induction gs with
  | nil => intro acc; rfl
  | cons g rest ihl =>
    intro acc
    cases g with
    | vardecl name ini is_array array_size =>
      have hstep : data_code_fold px (AST.vardecl name ini is_array array_size :: rest) acc =
          data_code_fold px rest
            (acc ++ [AInstr.globlDir (px ++ name), AInstr.p2align2,
                AInstr.asmLabel (px ++ name)] ++
             (if is_array then [AInstr.zeroDir (array_size * 4)]
              else match ini with
                | some e => [AInstr.longDir (ast_num_field e)]
                | none => [AInstr.longDir 0]) ++ [AInstr.blank]) := rfl
      rw [hstep, ihl]
      cases is_array with
      | true => simp [labelDefs_append, labelDefs]
      | false => cases ini <;> simp [labelDefs_append, labelDefs]
    | num n => exact ihl acc
    | strLit s => exact ihl acc
    | var name => exact ihl acc
    | binop op l r => exact ihl acc
    | unop op o => exact ihl acc
    | assign l r op => exact ihl acc
    | call name args => exact ihl acc
    | array_access name idx => exact ihl acc
    | addr name => exact ihl acc
    | if_stmt c t e => exact ihl acc
    | while_stmt c b => exact ihl acc
    | for_stmt i c u b => exact ihl acc
    | ret v => exact ihl acc
    | block ss => exact ihl acc
    | func n2 p b v => exact ihl acc
    | program g2 f2 => exact ihl acc

theorem str_code_no_labels (px : String) : ∀ (qs : List (Nat × String)) (acc : List AInstr),
    labelDefs (str_code_fold px qs acc) = labelDefs acc := by
  intro qs
  induction qs with
  | nil => intro acc; rfl
  | cons q rest ihl =>
    intro acc
    have hstep : str_code_fold px (q :: rest) acc = str_code_fold px rest
        (acc ++ [AInstr.asmLabel (px ++ "str" ++ toString q.1),
                 AInstr.ascizDir q.2]) := rfl
    rw [hstep, ihl]
    simp [labelDefs_append, labelDefs]

theorem labelDefs_ifsec (b : Bool) (l1 l2 : List AInstr)
    (h1 : labelDefs l1 = []) (h2 : labelDefs l2 = []) :
    labelDefs (if b then l1 else l2) = [] := by
  cases b <;> simp [h1, h2]

/-- Unfolding of the program arm of `gen_program_arm64` through the fold
helpers. -/
theorem gen_program_arm64_unfold (fuel : Nat) (st : GenSt)
    (globals funcs : List AST) :
    gen_program_arm64 fuel st (.program globals funcs) = (do
      let (st1, funcCode) ← funcs.foldlM (fun (acc : GenSt × List AInstr) f => do
          let (st', c) ← gen_func_arm64 fuel acc.1 f
          .ok (st', acc.2 ++ c)) (global_fold st globals, ([] : List AInstr))
      Except.ok (st1,
        (if (global_fold st globals).is_linux then
            [AInstr.sectionDir ".section .text", AInstr.blank]
          else [AInstr.sectionDir ".section __TEXT,__text", AInstr.blank]) ++ funcCode ++
        (if st1.is_linux then [AInstr.sectionDir ".section .data"]
          else [AInstr.sectionDir ".section __DATA,__data"]) ++
        data_code_fold (if st1.is_linux then "" else "_") globals [] ++
        (if st1.is_linux then [AInstr.sectionDir ".section .rodata"]
          else [AInstr.sectionDir ".section __TEXT,__cstring"]) ++
        str_code_fold (if st1.is_linux then "" else "_") st1.string_literals.enum [])) := rfl

theorem gen_program_arm64_inv (fuel : Nat) (p : AST) (st st' : GenSt) (ins : List AInstr)
    (h : gen_program_arm64 fuel st p = .ok (st', ins)) : SInv st st' ins := by
  cases p with
  | num n => simp [gen_program_arm64] at h
  | strLit s => simp [gen_program_arm64] at h
  | var name => simp [gen_program_arm64] at h
  | binop op l r => simp [gen_program_arm64] at h
  | unop op o => simp [gen_program_arm64] at h
  | assign l r op => simp [gen_program_arm64] at h
  | call name args => simp [gen_program_arm64] at h
  | array_access name idx => simp [gen_program_arm64] at h
  | addr name => simp [gen_program_arm64] at h
  | vardecl name ini ia sz => simp [gen_program_arm64] at h
  | if_stmt c t e => simp [gen_program_arm64] at h
  | while_stmt c b => simp [gen_program_arm64] at h
  | for_stmt i c u b => simp [gen_program_arm64] at h
  | ret v => simp [gen_program_arm64] at h
  | block ss => simp [gen_program_arm64] at h
  | func n2 pr b v => simp [gen_program_arm64] at h
  | program globals funcs =>
    rw [gen_program_arm64_unfold] at h
    obtain ⟨⟨st1, funcCode⟩, hf, h⟩ := except_bind_eq_ok h
    simp only [Except.ok.injEq, Prod.mk.injEq] at h
    obtain ⟨h1, h2⟩ := h
    subst h1; subst h2
    obtain ⟨newcode, hcode, hsinv⟩ :=
      gen_funcs_fold_inv fuel funcs (global_fold st globals) [] st1 funcCode hf
    simp only [List.nil_append] at hcode
    subst hcode
    have hG := global_fold_inv globals st
    obtain ⟨hlinF, hkF, hFB, hFN⟩ := hsinv
    have hT : labelDefs (if (global_fold st globals).is_linux then
        [AInstr.sectionDir ".section .text", AInstr.blank]
        else [AInstr.sectionDir ".section __TEXT,__text", AInstr.blank]) = [] :=
      labelDefs_ifsec _ _ _ rfl rfl
    have hD : labelDefs (if st1.is_linux then [AInstr.sectionDir ".section .data"]
        else [AInstr.sectionDir ".section __DATA,__data"]) = [] :=
      labelDefs_ifsec _ _ _ rfl rfl
    have hR : labelDefs (if st1.is_linux then [AInstr.sectionDir ".section .rodata"]
        else [AInstr.sectionDir ".section __TEXT,__cstring"]) = [] :=
      labelDefs_ifsec _ _ _ rfl rfl
    have hData : labelDefs (data_code_fold (if st1.is_linux then "" else "_")
        globals []) = [] := data_code_no_labels _ globals []
    have hStr : labelDefs (str_code_fold (if st1.is_linux then "" else "_")
        st1.string_literals.enum []) = [] := str_code_no_labels _ _ []
    rw [hG.1] at hkF hFB
    refine ⟨?_, hkF, ?_, ?_⟩
    · rw [hlinF, hG.2]
    · intro m hm
      simp only [labelDefs_append, hT, hD, hR, hData, hStr, List.nil_append,
        List.append_nil] at hm
      exact hFB m hm
    · simp only [labelDefs_append, hT, hD, hR, hData, hStr, List.nil_append,
        List.append_nil]
      exact hFN

end Minicc

namespace Minicc

set_option maxHeartbeats 4000000

theorem string_scan_ok : ∀ (fuel : Nat) (s : List Char) (pos : Nat),
    nulChar ∉ s →
    (∀ (h : 0 < s.length), s.get ⟨s.length - 1, Nat.sub_lt h Nat.one_pos⟩ ≠ '\\') →
    pos ≤ s.length → s.length - pos < fuel →
    ∃ p, string_scan (s ++ [nulChar]) fuel pos = .ok p ∧ p ≤ s.length := by
  intro fuel
  induction fuel with
  | zero => intro s pos h1 h2 h3 h4; omega
  | succ n ih =>
    intro s pos hnul hlast hpos hfuel
    have hlen : (s ++ [nulChar]).length = s.length + 1 := by simp
    have hlt : pos < (s ++ [nulChar]).length := by omega
    rcases Nat.lt_or_ge pos s.length with hps | hps
    · have hch : (s ++ [nulChar]).get ⟨pos, hlt⟩ = s.get ⟨pos, hps⟩ := by
        simp [List.get_eq_getElem, List.getElem_append_left hps]
      have hmem : s.get ⟨pos, hps⟩ ∈ s := List.get_mem s pos hps
      have hchnul : s.get ⟨pos, hps⟩ ≠ nulChar := fun hcontra => hnul (hcontra ▸ hmem)
      by_cases hq : s.get ⟨pos, hps⟩ = '"'
      · refine ⟨pos, ?_, by omega⟩
        simp only [string_scan]
        rw [dif_pos hlt, hch]
        rw [if_pos (Or.inr hq)]
      · by_cases hb : s.get ⟨pos, hps⟩ = '\\'
        · have hne : pos ≠ s.length - 1 := by
            intro hcontra
            exact hlast (by omega) (by subst hcontra; exact hb)
          have hlt2 : pos + 1 < (s ++ [nulChar]).length := by omega
          obtain ⟨p, hp, hple⟩ := ih s (pos + 2) hnul hlast (by omega) (by omega)
          refine ⟨p, ?_, hple⟩
          simp only [string_scan]
          rw [dif_pos hlt, hch]
          rw [if_neg (not_or.mpr ⟨hchnul, hq⟩), if_pos hb, if_pos hlt2]
          exact hp
        · obtain ⟨p, hp, hple⟩ := ih s (pos + 1) hnul hlast (by omega) (by omega)
          refine ⟨p, ?_, hple⟩
          simp only [string_scan]
          rw [dif_pos hlt, hch]
          rw [if_neg (not_or.mpr ⟨hchnul, hq⟩), if_neg hb]
          exact hp
    · have hpe : pos = s.length := by omega
      have hch : (s ++ [nulChar]).get ⟨pos, hlt⟩ = nulChar := by
        subst hpe
        simp [List.get_eq_getElem, List.getElem_concat_length]
      refine ⟨pos, ?_, by omega⟩
      simp only [string_scan]
      rw [dif_pos hlt, hch]
      rw [if_pos (Or.inl rfl)]

theorem line_comment_scan_ok : ∀ (fuel : Nat) (s : List Char) (pos : Nat),
    nulChar ∉ s →
    pos ≤ s.length → s.length - pos < fuel →
    ∃ p, line_comment_scan (s ++ [nulChar]) fuel pos = .ok p ∧ p ≤ s.length := by
  intro fuel
  induction fuel with
  | zero => intro s pos h1 h3 h4; omega
  | succ n ih =>
    intro s pos hnul hpos hfuel
    have hlen : (s ++ [nulChar]).length = s.length + 1 := by simp
    have hlt : pos < (s ++ [nulChar]).length := by omega
    rcases Nat.lt_or_ge pos s.length with hps | hps
    · have hch : (s ++ [nulChar]).get ⟨pos, hlt⟩ = s.get ⟨pos, hps⟩ := by
        simp [List.get_eq_getElem, List.getElem_append_left hps]
      have hmem : s.get ⟨pos, hps⟩ ∈ s := List.get_mem s pos hps
      have hchnul : s.get ⟨pos, hps⟩ ≠ nulChar := fun hcontra => hnul (hcontra ▸ hmem)
      by_cases hq : s.get ⟨pos, hps⟩ = '\n'
      · refine ⟨pos, ?_, by omega⟩
        simp only [line_comment_scan]
        rw [dif_pos hlt, hch]
        rw [if_pos (Or.inr hq)]
      · obtain ⟨p, hp, hple⟩ := ih s (pos + 1) hnul (by omega) (by omega)
        refine ⟨p, ?_, hple⟩
        simp only [line_comment_scan]
        rw [dif_pos hlt, hch]
        rw [if_neg (not_or.mpr ⟨hchnul, hq⟩)]
        exact hp
    · have hpe : pos = s.length := by omega
      have hch : (s ++ [nulChar]).get ⟨pos, hlt⟩ = nulChar := by
        subst hpe
        simp [List.get_eq_getElem, List.getElem_concat_length]
      refine ⟨pos, ?_, by omega⟩
      simp only [line_comment_scan]
      rw [dif_pos hlt, hch]
      rw [if_pos (Or.inl rfl)]

theorem comment_scan_ok : ∀ (fuel : Nat) (s : List Char) (pos : Nat),
    nulChar ∉ s →
    pos ≤ s.length → s.length - pos < fuel →
    ∃ p, comment_scan (s ++ [nulChar]) fuel pos = .ok p ∧ p ≤ s.length := by
  intro fuel
  induction fuel with
  | zero => intro s pos h1 h3 h4; omega
  | succ n ih =>
    intro s pos hnul hpos hfuel
    have hlen : (s ++ [nulChar]).length = s.length + 1 := by simp
    have hlt : pos < (s ++ [nulChar]).length := by omega
    rcases Nat.lt_or_ge pos s.length with hps | hps
    · have hch : (s ++ [nulChar]).get ⟨pos, hlt⟩ = s.get ⟨pos, hps⟩ := by
        simp [List.get_eq_getElem, List.getElem_append_left hps]
      have hmem : s.get ⟨pos, hps⟩ ∈ s := List.get_mem s pos hps
      have hchnul : s.get ⟨pos, hps⟩ ≠ nulChar := fun hcontra => hnul (hcontra ▸ hmem)
      have hlt2 : pos + 1 < (s ++ [nulChar]).length := by omega
      by_cases hstar : s.get ⟨pos, hps⟩ = '*'
      · rcases Nat.lt_or_ge (pos + 1) s.length with hp1 | hp1
        · have hch2 : (s ++ [nulChar]).get ⟨pos + 1, hlt2⟩ = s.get ⟨pos + 1, hp1⟩ := by
            simp [List.get_eq_getElem, List.getElem_append_left hp1]
          by_cases hsl : s.get ⟨pos + 1, hp1⟩ = '/'
          · refine ⟨pos + 2, ?_, by omega⟩
            simp only [comment_scan]
            rw [dif_pos hlt, hch]
            rw [if_neg hchnul, if_pos hstar, dif_pos hlt2, hch2, if_pos hsl]
          · obtain ⟨p, hp, hple⟩ := ih s (pos + 1) hnul (by omega) (by omega)
            refine ⟨p, ?_, hple⟩
            simp only [comment_scan]
            rw [dif_pos hlt, hch]
            rw [if_neg hchnul, if_pos hstar, dif_pos hlt2, hch2, if_neg hsl]
            exact hp
        · have hp1e : pos + 1 = s.length := by omega
          have hch2 : (s ++ [nulChar]).get ⟨pos + 1, hlt2⟩ = nulChar := by
            rw [show (⟨pos + 1, hlt2⟩ : Fin (s ++ [nulChar]).length) =
                ⟨s.length, by omega⟩ from by simp [hp1e]]
            simp [List.get_eq_getElem, List.getElem_concat_length]
          have hnn : nulChar ≠ '/' := by decide
          obtain ⟨p, hp, hple⟩ := ih s (pos + 1) hnul (by omega) (by omega)
          refine ⟨p, ?_, hple⟩
          simp only [comment_scan]
          rw [dif_pos hlt, hch]
          rw [if_neg hchnul, if_pos hstar, dif_pos hlt2, hch2, if_neg hnn]
          exact hp
      · obtain ⟨p, hp, hple⟩ := ih s (pos + 1) hnul (by omega) (by omega)
        refine ⟨p, ?_, hple⟩
        simp only [comment_scan]
        rw [dif_pos hlt, hch]
        rw [if_neg hchnul, if_neg hstar]
        exact hp
    · have hpe : pos = s.length := by omega
      have hch : (s ++ [nulChar]).get ⟨pos, hlt⟩ = nulChar := by
        subst hpe
        simp [List.get_eq_getElem, List.getElem_concat_length]
      refine ⟨pos, ?_, by omega⟩
      simp only [comment_scan]
      rw [dif_pos hlt, hch]
      rw [if_pos rfl]

end Minicc

namespace Minicc

set_option maxHeartbeats 4000000

/-- C9 counterexample: when the string-literal scanning loop reaches a
backslash whose following byte is the NUL terminator (a source text that
ends in a lone backslash inside an unterminated string), the escape
branch steps over the terminator and the next peek reads past the end of
the source buffer, contradicting the claimed in-bounds property. -/
theorem C9_trailing_backslash_reads_past_nul :
    string_scan ['x', '\\', nulChar] 4 0 = .error .oob := rfl

/-- C9 (amended): on every source buffer (scan-start suffix `s` followed
by the NUL terminator, with no interior NUL), the three lexer scanning
loops terminate with the fuel bounded by the buffer length and stop at a
position inside the buffer, never reading past the terminator; for the
string-literal loop this additionally requires that the final source byte
is not a backslash, the one case in which the loop reads out of bounds. -/
theorem C9_lexer_scans_terminate_in_bounds (s : List Char) (pos : Nat)
    (hnul : nulChar ∉ s) (hpos : pos ≤ s.length) :
    ((∀ (h : 0 < s.length), s.get ⟨s.length - 1, Nat.sub_lt h Nat.one_pos⟩ ≠ '\\') →
      ∃ p, string_scan (s ++ [nulChar]) (s.length + 1 - pos) pos = .ok p ∧ p ≤ s.length) ∧
    (∃ p, comment_scan (s ++ [nulChar]) (s.length + 1 - pos) pos = .ok p ∧ p ≤ s.length) ∧
    (∃ p, line_comment_scan (s ++ [nulChar]) (s.length + 1 - pos) pos = .ok p ∧
      p ≤ s.length) :=
  ⟨fun hlast => string_scan_ok (s.length + 1 - pos) s pos hnul hlast hpos (by omega),
   comment_scan_ok (s.length + 1 - pos) s pos hnul hpos (by omega),
   line_comment_scan_ok (s.length + 1 - pos) s pos hnul hpos (by omega)⟩

theorem C9_lexer_scans_terminate_in_bounds_witness :
    (nulChar ∉ (['a', 'b'] : List Char)) ∧
    (∃ p, string_scan (['a', 'b'] ++ [nulChar]) 3 0 = .ok p ∧ p ≤ 2) ∧
    (∃ p, comment_scan (['a', 'b'] ++ [nulChar]) 3 0 = .ok p ∧ p ≤ 2) ∧
    (∃ p, line_comment_scan (['a', 'b'] ++ [nulChar]) 3 0 = .ok p ∧ p ≤ 2) := by
  have h := C9_lexer_scans_terminate_in_bounds ['a', 'b'] 0 (by decide) (by decide)
  exact ⟨by decide, h.1 (by decide), h.2.1, h.2.2⟩

/-- C6 (amended): every statement whose generation succeeds preserves the
local-offset invariant: the running stack offset stays a nonnegative
multiple of 4 and every local (non-global, non-parameter) symbol in the
table keeps a positive offset divisible by 4 — with no upper bound:
offsets of 256 and beyond are accepted without any diagnostic. -/
theorem C6_local_offsets_positive_mult4 (fuel : Nat) (s : AST) (st st' : GenSt)
    (ins : List AInstr) (h : gen_stmt_arm64 fuel st s = .ok (st', ins))
    (hsz : stmt_sizes_ok fuel s = true) (ho : local_offsets_ok st) :
    local_offsets_ok st' :=
  (gen_stmt_arm64_inv fuel s st st' ins h).2 hsz ho

theorem C6_local_offsets_positive_mult4_witness :
    gen_stmt_arm64 9 (init_state false) (AST.vardecl "a" none true 100) =
      .ok (c6_state, []) ∧
    stmt_sizes_ok 9 (AST.vardecl "a" none true 100) = true ∧
    local_offsets_ok c6_state :=
  ⟨rfl, rfl,
   C6_local_offsets_positive_mult4 9 (AST.vardecl "a" none true 100)
     (init_state false) c6_state [] rfl rfl
     ⟨le_refl 0, ⟨0, rfl⟩, fun _ hmem => nomatch hmem⟩⟩

/-- C10: whenever the AArch64 program generator succeeds starting from
the initial compilation state, the numeric labels defined by `L<n>:`
lines in the emitted assembly are pairwise distinct across the whole
file: the label counter is initialized once and never reset between
functions. -/
theorem C10_label_distinctness (fuel : Nat) (lin : Bool) (p : AST)
    (st' : GenSt) (ins : List AInstr)
    (h : gen_program_arm64 fuel (init_state lin) p = .ok (st', ins)) :
    (labelDefs ins).Nodup :=
  (gen_program_arm64_inv fuel p (init_state lin) st' ins h).2.2.2

def progC10 : AST :=
  AST.program []
    [AST.func "f" []
      (AST.block [AST.if_stmt (AST.num 1) (AST.ret (some (AST.num 1)))
        (some (AST.ret (some (AST.num 2))))]) false,
     AST.func "main" []
      (AST.block [AST.while_stmt (AST.num 0) (AST.block []),
        AST.ret (some (AST.num 0))]) false]

def except_is_ok (x : Except GenErr (GenSt × List AInstr)) : Bool :=
  match x with
  | .ok _ => true
  | .error _ => false

theorem C10_label_distinctness_witness :
    ∃ r : GenSt × List AInstr,
      gen_program_arm64 8 (init_state true) progC10 = .ok r ∧
      (labelDefs r.2).Nodup := by
  rcases hE : gen_program_arm64 8 (init_state true) progC10 with e | r
  · have hok : except_is_ok (gen_program_arm64 8 (init_state true) progC10) = true := rfl
    rw [hE] at hok
    simp [except_is_ok] at hok
  · exact ⟨r, rfl, C10_label_distinctness 8 true progC10 r.1 r.2 (by rw [hE])⟩

end Minicc
